import Mathlib

/-!
Verification development for a small weather application (Python source).

The in-scope components are shallowly embedded as executable Lean
definitions:

* `utils.py` — the location parser (`parse_location_input`) and the
  Korean city-name translation (`translate_korean_city`);
* `api.py`   — the request/retry loop (`_make_request`), daily
  aggregation (`get_daily_forecast`) and the weekly-forecast fallback
  (`get_weekly_forecast`);
* `storage.py` — search history, favorites and saved records with
  export/import.

Modelling conventions:

* Python `float` values appearing here are only ever produced by parsing
  decimal literals and by sums/means of such values; they are modelled as
  exact rationals (`ℚ`).  `str(float(...))` is modelled by rendering the
  canonical decimal form (trailing fractional zeros removed, `.0` for
  integral values), which is what CPython's shortest round-trip `repr`
  produces on these inputs.
* Python strings are Lean `String`s; `str.strip`, `str.lower`, substring
  containment (`in`), string comparison and `str.split` are implemented
  directly on the underlying character lists.
* Python's builtin stable `sorted` is modelled by a stable insertion
  sort (`pySorted`).
* The HTTP transport is an explicit oracle `Nat → TransportResult α`
  mapping the attempt number to its outcome; `time.sleep` is recorded in
  an event log instead of actually sleeping.
* File-backed collections of `storage.py` are the in-memory lists that
  the JSON files hold; `_save_json` success is modelled as the pure state
  update (I/O failure is environmental and outside the embedding).
-/

namespace Weather

/-! ## Basic character and list utilities -/

/-- Membership of the six characters Python's `str.strip` removes in the
ASCII range (the full Unicode whitespace set is not needed here: no input
class in the verified claims contains non-ASCII whitespace). -/
def isPySpace (c : Char) : Bool :=
  c == ' ' || c == '\t' || c == '\n' || c == '\r' || c == '\x0b' || c == '\x0c'

/-- Characters that can occur in a string matching the coordinate regular
expression `^-?\d+\.?\d*,-?\d+\.?\d*$` of `utils.py`. -/
def isCoordChar (c : Char) : Bool :=
  c.isDigit || c == '.' || c == '-' || c == ','

/-- Python `str.strip()` on the character list. -/
def stripChars (l : List Char) : List Char :=
  ((l.dropWhile isPySpace).reverse.dropWhile isPySpace).reverse

/-- Python `str.strip()`. -/
def pyStrip (s : String) : String := ⟨stripChars s.data⟩

/-- Boolean test that `pre` is a leading block of `l`. -/
def listStarts : List Char → List Char → Bool
  | [], _ => true
  | _ :: _, [] => false
  | a :: as, b :: bs => a == b && listStarts as bs

/-- Boolean test that `needle` occurs contiguously inside `hay`; this is
Python's `needle in hay` on strings. -/
def listHasSub (needle : List Char) : List Char → Bool
  | [] => listStarts needle []
  | c :: rest => listStarts needle (c :: rest) || listHasSub needle rest

/-- Python string containment `needle in hay`. -/
def strIn (needle hay : String) : Bool := listHasSub needle.data hay.data

/-- Python `str.lower()` (ASCII case folding; the queries stored by the
application are ASCII or Korean, and Korean has no case). -/
def pyLower (s : String) : String := ⟨s.data.map Char.toLower⟩

/-- Python string comparison `s < t` by code points, as a Boolean on the
character lists. -/
def lexLt : List Char → List Char → Bool
  | [], [] => false
  | [], _ :: _ => true
  | _ :: _, [] => false
  | a :: as, b :: bs => decide (a < b) || (a == b && lexLt as bs)

/-- Python `s <= t` on strings. -/
def strLe (s t : String) : Bool := !(lexLt t.data s.data)

/-! ## The Korean city mapping table of `utils.py` -/

/-- KOREAN_CITY_MAPPING from `utils.py`, in source (insertion) order. -/
def KOREAN_CITY_MAPPING : List (String × String) := [
  ("서울", "Seoul,KR"), ("부산", "Busan,KR"), ("대구", "Daegu,KR"),
  ("인천", "Incheon,KR"), ("광주", "Gwangju,KR"), ("대전", "Daejeon,KR"),
  ("울산", "Ulsan,KR"), ("제주", "Jeju,KR"), ("수원", "Suwon,KR"),
  ("창원", "Changwon,KR"), ("성남", "Seongnam,KR"), ("청주", "Cheongju,KR"),
  ("전주", "Jeonju,KR"), ("천안", "Cheonan,KR"), ("안산", "Ansan,KR"),
  ("안양", "Anyang,KR"), ("포항", "Pohang,KR"), ("의정부", "Uijeongbu,KR"),
  ("원주", "Wonju,KR"), ("춘천", "Chuncheon,KR"),
  ("도쿄", "Tokyo,JP"), ("교토", "Kyoto,JP"), ("오사카", "Osaka,JP"),
  ("나고야", "Nagoya,JP"), ("후쿠오카", "Fukuoka,JP"), ("삿포로", "Sapporo,JP"),
  ("센다이", "Sendai,JP"), ("히로시마", "Hiroshima,JP"), ("요코하마", "Yokohama,JP"),
  ("베이징", "Beijing,CN"), ("상하이", "Shanghai,CN"), ("광저우", "Guangzhou,CN"),
  ("선전", "Shenzhen,CN"), ("청두", "Chengdu,CN"), ("시안", "Xi\x27an,CN"),
  ("난징", "Nanjing,CN"), ("우한", "Wuhan,CN"), ("텐진", "Tianjin,CN"),
  ("항저우", "Hangzhou,CN"),
  ("방콕", "Bangkok,TH"), ("싱가포르", "Singapore,SG"),
  ("쿠알라룸푸르", "Kuala Lumpur,MY"), ("자카르타", "Jakarta,ID"),
  ("마닐라", "Manila,PH"), ("호치민", "Ho Chi Minh City,VN"),
  ("하노이", "Hanoi,VN"), ("양곤", "Yangon,MM"), ("프놈펜", "Phnom Penh,KH"),
  ("런던", "London,GB"), ("파리", "Paris,FR"), ("베를린", "Berlin,DE"),
  ("로마", "Rome,IT"), ("마드리드", "Madrid,ES"), ("암스테르담", "Amsterdam,NL"),
  ("취리히", "Zurich,CH"), ("스톡홀름", "Stockholm,SE"), ("비엔나", "Vienna,AT"),
  ("프라하", "Prague,CZ"), ("바르셀로나", "Barcelona,ES"), ("밀라노", "Milan,IT"),
  ("뮌헨", "Munich,DE"), ("부다페스트", "Budapest,HU"), ("바르샤바", "Warsaw,PL"),
  ("오슬로", "Oslo,NO"), ("헬싱키", "Helsinki,FI"), ("코펜하겐", "Copenhagen,DK"),
  ("뉴욕", "New York,US"), ("로스앤젤레스", "Los Angeles,US"),
  ("시카고", "Chicago,US"), ("휴스턴", "Houston,US"), ("피닉스", "Phoenix,US"),
  ("필라델피아", "Philadelphia,US"), ("샌안토니오", "San Antonio,US"),
  ("샌디에이고", "San Diego,US"), ("댈러스", "Dallas,US"), ("산호세", "San Jose,US"),
  ("라스베이거스", "Las Vegas,US"), ("시애틀", "Seattle,US"), ("덴버", "Denver,US"),
  ("워싱턴", "Washington,US"), ("보스턴", "Boston,US"), ("토론토", "Toronto,CA"),
  ("몬트리올", "Montreal,CA"), ("벤쿠버", "Vancouver,CA"), ("캘거리", "Calgary,CA"),
  ("상파울루", "São Paulo,BR"), ("리우데자네이루", "Rio de Janeiro,BR"),
  ("부에노스아이레스", "Buenos Aires,AR"), ("리마", "Lima,PE"),
  ("보고타", "Bogotá,CO"), ("산티아고", "Santiago,CL"), ("카라카스", "Caracas,VE"),
  ("시드니", "Sydney,AU"), ("멜버른", "Melbourne,AU"), ("브리즈번", "Brisbane,AU"),
  ("퍼스", "Perth,AU"), ("애들레이드", "Adelaide,AU"), ("오클랜드", "Auckland,NZ"),
  ("웰링턴", "Wellington,NZ"),
  ("두바이", "Dubai,AE"), ("카이로", "Cairo,EG"), ("이스탄불", "Istanbul,TR"),
  ("텔아비브", "Tel Aviv,IL"), ("카사블랑카", "Casablanca,MA"),
  ("케이프타운", "Cape Town,ZA"), ("요하네스버그", "Johannesburg,ZA"),
  ("뭄바이", "Mumbai,IN"), ("델리", "Delhi,IN"), ("방갈로르", "Bangalore,IN"),
  ("콜카타", "Kolkata,IN"), ("카라치", "Karachi,PK"), ("라호르", "Lahore,PK"),
  ("다카", "Dhaka,BD"), ("콜롬보", "Colombo,LK"), ("카트만두", "Kathmandu,NP"),
  ("타슈켄트", "Tashkent,UZ"),
  ("타이베이", "Taipei,TW"), ("가오슝", "Kaohsiung,TW"), ("홍콩", "Hong Kong,HK"),
  ("마카오", "Macau,MO")]

/-- Embedding of `translate_korean_city` from `utils.py`: strip, then an
exact lookup in the mapping, then a substring containment match in either
direction over the table in insertion order, else return the (stripped)
input. -/
def translate_korean_city (city_name : String) : String :=
  let c := pyStrip city_name
  match KOREAN_CITY_MAPPING.find? (fun p => p.1 == c) with
  | some p => p.2
  | none =>
    match KOREAN_CITY_MAPPING.find? (fun p => strIn p.1 c || strIn c p.1) with
    | some p => p.2
    | none => c

/-! ## The coordinate pattern and decimal numbers -/

/-- Python `location_str.split(',')`: split a character list at every
comma. -/
def splitComma : List Char → List (List Char)
  | [] => [[]]
  | c :: rest =>
    if c = ',' then [] :: splitComma rest
    else
      match splitComma rest with
      | r :: rs => (c :: r) :: rs
      | [] => [[c]]

/-- Matcher for the unsigned part `\d+\.?\d*` of the coordinate regular
expression: a nonempty maximal digit block followed by nothing or by a dot
and digits. -/
def matchUnsigned (cs : List Char) : Bool :=
  let rest := cs.dropWhile Char.isDigit
  !(cs.takeWhile Char.isDigit).isEmpty &&
    (match rest with
     | [] => true
     | c :: frac => c == '.' && frac.all Char.isDigit)

/-- Matcher for one side `-?\d+\.?\d*` of the coordinate regular
expression. -/
def matchNumPart (cs : List Char) : Bool :=
  if cs.head? = some '-' then matchUnsigned cs.tail else matchUnsigned cs

/-- The full coordinate regular expression
`^-?\d+\.?\d*,-?\d+\.?\d*$` from `parse_location_input`: exactly one
comma, both sides matching the numeric part. -/
def coordPattern (s : String) : Bool :=
  match splitComma s.data with
  | [a, b] => matchNumPart a && matchNumPart b
  | _ => false

/-- Exact decimal value of a parsed coordinate literal: sign, integer
part, fraction numerator and number of fractional digits.  This is the
rational-number model of the Python `float` produced by `float(s)` on a
string matching the numeric part of the coordinate pattern. -/
structure Dec where
  neg : Bool
  intPart : Nat
  fracNum : Nat
  fracLen : Nat
deriving DecidableEq, Repr

/-- Rational value of a parsed decimal. -/
def Dec.val (d : Dec) : ℚ :=
  (if d.neg then -1 else 1) * ((d.intPart : ℚ) + (d.fracNum : ℚ) / (10 : ℚ) ^ d.fracLen)

/-- Integer numerator of the decimal over the denominator
`10 ^ fracLen`. -/
def Dec.scaled (d : Dec) : ℤ :=
  (if d.neg then -1 else 1) * ((d.intPart : ℤ) * 10 ^ d.fracLen + (d.fracNum : ℤ))

/-- Executable form of the Python chained float comparison
`lo <= x <= hi` on the exact decimal value, by cross-multiplication with
the positive denominator `10 ^ fracLen`.  `Dec.inRange_iff` below proves
it equivalent to the comparison of the rational values. -/
def Dec.inRange (d : Dec) (lo hi : ℤ) : Bool :=
  decide (lo * 10 ^ d.fracLen ≤ d.scaled) && decide (d.scaled ≤ hi * 10 ^ d.fracLen)

/-- Numeric value of a digit character. -/
def digitVal (c : Char) : Nat := c.toNat - 48

/-- Value of a digit string, most significant digit first. -/
def digitsToNat (l : List Char) : Nat :=
  l.foldl (fun a c => 10 * a + digitVal c) 0

/-- Parser for the unsigned decimal `\d+\.?\d*`; models `float(s)` on
the strings where `parse_location_input` applies it. -/
def parseUnsigned (cs : List Char) : Option Dec :=
  let ip := cs.takeWhile Char.isDigit
  let rest := cs.dropWhile Char.isDigit
  if ip.isEmpty then none
  else
    match rest with
    | [] => some ⟨false, digitsToNat ip, 0, 0⟩
    | c :: frac =>
      if c = '.' && frac.all Char.isDigit then
        some ⟨false, digitsToNat ip, digitsToNat frac, frac.length⟩
      else none

/-- Parser for one signed coordinate literal. -/
def parseDec (cs : List Char) : Option Dec :=
  if cs.head? = some '-' then (parseUnsigned cs.tail).map (fun d => { d with neg := true })
  else parseUnsigned cs

/-- Character of a single decimal digit (values above nine never occur
where this is applied). -/
def digitChar : Nat → Char
  | 0 => '0' | 1 => '1' | 2 => '2' | 3 => '3' | 4 => '4'
  | 5 => '5' | 6 => '6' | 7 => '7' | 8 => '8' | _ => '9'

/-- Decimal digits of a natural number, most significant first
(accumulator form; the fuel argument bounds the recursion and any fuel
of at least `n` gives the digits of `n`). -/
def natDigitsGo : Nat → Nat → List Char → List Char
  | 0, _, acc => acc
  | fuel + 1, n, acc =>
    if n = 0 then acc
    else natDigitsGo fuel (n / 10) (digitChar (n % 10) :: acc)

/-- Decimal digits of a natural number, `"0"` for zero. -/
def natDigits (n : Nat) : List Char :=
  if n = 0 then ['0'] else natDigitsGo n n []

/-- Removal of trailing zeros from a fraction numerator of the given
digit length; CPython's shortest `repr` of a float never prints trailing
fractional zeros. -/
def stripZeros : Nat → Nat → Nat × Nat
  | n, 0 => (n, 0)
  | n, k + 1 => if n % 10 = 0 then stripZeros (n / 10) k else (n, k + 1)

/-- Model of Python `str(float)` on the exact decimal `d`: optional
sign, integer digits, dot, fractional digits without trailing zeros
(a single `0` when the value is integral). -/
def pyStrFloat (d : Dec) : String :=
  let p := stripZeros d.fracNum d.fracLen
  let fracCs :=
    if p.2 = 0 then ['0']
    else List.replicate (p.2 - (natDigits p.1).length) '0' ++ natDigits p.1
  ⟨(if d.neg then ['-'] else []) ++ natDigits d.intPart ++ '.' :: fracCs⟩

/-! ## The location parser -/

/-- Result of a fallible Python call: the value or the message of the
raised error. -/
inductive PRes (α : Type) where
  | ok (a : α)
  | err (msg : String)
deriving DecidableEq, Repr

/-- Result shape of `parse_location_input`: either `{"q": ...}` or
`{"lat": ..., "lon": ...}`. -/
inductive LocQuery where
  | q (s : String)
  | coords (lat lon : String)
deriving DecidableEq, Repr

/-- Error message for empty input. -/
def emptyMsg : String := "위치를 입력해주세요."

/-- Error message naming the latitude bound. -/
def latMsg : String := "위도는 -90에서 90 사이여야 합니다."

/-- Error message naming the longitude bound. -/
def lonMsg : String := "경도는 -180에서 180 사이여야 합니다."

/-- Error message for a coordinate-looking string that fails to parse. -/
def coordFormatMsg : String := "좌표 형식이 올바르지 않습니다. 예: 37.5665,126.9780"

/-- Embedding of `parse_location_input` from `utils.py`.  Steps, in
source order: reject blank input; strip; Korean-city translation (exact,
then containment) with immediate `{"q": translated}` when the translation
changed the string; coordinate pattern match with `float` parsing, range
validation (latitude first) and `str(float)` rendering; otherwise the
stripped string as a `{"q": ...}` query. -/
def parse_location_input (location_str : String) : PRes LocQuery :=
  if (pyStrip location_str).data.isEmpty then .err emptyMsg
  else
    let t := pyStrip location_str
    let translated := translate_korean_city t
    if translated ≠ t then .ok (.q translated)
    else if coordPattern t then
      match splitComma t.data with
      | [latCs, lonCs] =>
        match parseDec latCs, parseDec lonCs with
        | some lat, some lon =>
          if !(lat.inRange (-90) 90) then .err latMsg
          else if !(lon.inRange (-180) 180) then .err lonMsg
          else .ok (.coords (pyStrFloat lat) (pyStrFloat lon))
        | _, _ => .err coordFormatMsg
      | _ => .err coordFormatMsg
    else .ok (.q t)

/-! ## Weather client request loop (`api.py` / `config.py`) -/

/-- MAX_RETRIES from `config.py`. -/
def MAX_RETRIES : Nat := 2

/-- Outcome of one HTTP call of the `requests` library: the three caught
transport exception classes, or a response with a status code and a
parsed JSON body (abstracted to `α`). -/
inductive TransportResult (α : Type) where
  | timeout
  | connError
  | reqError (msg : String)
  | response (status : Nat) (body : α)

/-- The `WeatherAPIError` raised by `_make_request`, one constructor per
distinct raise site. -/
inductive WAError where
  | noApiKey
  | invalidKey
  | notFound
  | rateLimited
  | apiError (status : Nat)
  | timeoutExhausted
  | connExhausted
  | reqExhausted (msg : String)
  | loopFellThrough
deriving DecidableEq, Repr

/-- Result of a call that either returns a value or raises a
`WeatherAPIError`. -/
inductive ReqOutcome (α : Type) where
  | ok (a : α)
  | fail (e : WAError)
deriving DecidableEq, Repr

/-- Instrumented result of `_make_request`: the returned value or raised
error, the number of HTTP calls performed, and the `time.sleep` durations
in order. -/
structure RunResult (α : Type) where
  result : ReqOutcome α
  calls : Nat
  sleeps : List Nat
deriving DecidableEq, Repr

/-- Status-code dispatch of `_make_request`: 401, 404, 429, then any
other status of at least 400, else success. -/
def mapHTTPStatus (status : Nat) : Option WAError :=
  if status = 401 then some .invalidKey
  else if status = 404 then some .notFound
  else if status = 429 then some .rateLimited
  else if 400 ≤ status then some (.apiError status)
  else none

/-- Body of the retry loop `for attempt in range(MAX_RETRIES + 1)` of
`_make_request`.  A response is dispatched on its status with no retry;
a caught transport exception on the final attempt raises the matching
exhaustion error, and otherwise sleeps `2 ^ attempt` seconds and
retries.  The fuel counts the remaining loop iterations; running out of
fuel is Python's implicit `return None` after the loop, which
`makeRequest_no_fallthrough` below proves unreachable. -/
def makeRequestGo (transport : Nat → TransportResult α) (maxRetries : Nat) :
    Nat → Nat → RunResult α
  | 0, _ => ⟨.fail .loopFellThrough, 0, []⟩
  | fuel + 1, attempt =>
    match transport attempt with
    | .response status body =>
      match mapHTTPStatus status with
      | some e => ⟨.fail e, 1, []⟩
      | none => ⟨.ok body, 1, []⟩
    | .timeout =>
      if attempt = maxRetries then ⟨.fail .timeoutExhausted, 1, []⟩
      else
        let r := makeRequestGo transport maxRetries fuel (attempt + 1)
        ⟨r.result, r.calls + 1, 2 ^ attempt :: r.sleeps⟩
    | .connError =>
      if attempt = maxRetries then ⟨.fail .connExhausted, 1, []⟩
      else
        let r := makeRequestGo transport maxRetries fuel (attempt + 1)
        ⟨r.result, r.calls + 1, 2 ^ attempt :: r.sleeps⟩
    | .reqError msg =>
      if attempt = maxRetries then ⟨.fail (.reqExhausted msg), 1, []⟩
      else
        let r := makeRequestGo transport maxRetries fuel (attempt + 1)
        ⟨r.result, r.calls + 1, 2 ^ attempt :: r.sleeps⟩

/-- Embedding of `WeatherAPI._make_request`: the missing-key check, then
the retry loop over attempts `0 .. MAX_RETRIES`.  The HTTP transport is
the oracle `transport`, mapping the attempt number to that call's
outcome. -/
def make_request (hasKey : Bool) (transport : Nat → TransportResult α) : RunResult α :=
  if !hasKey then ⟨.fail .noApiKey, 0, []⟩
  else makeRequestGo transport MAX_RETRIES (MAX_RETRIES + 1) 0

/-! ## Forecast data and daily aggregation (`api.py`) -/

/-- ForecastData of `api.py` (one 3-hour forecast slot).  Numeric fields
are exact rationals; `pop` is already scaled to a percentage by
`get_forecast`. -/
structure ForecastData where
  timestamp : Nat
  temperature : ℚ
  temp_min : ℚ
  temp_max : ℚ
  weather_main : String
  weather_description : String
  weather_icon : String
  humidity : ℚ
  wind_speed : ℚ
  pop : ℚ
deriving DecidableEq, Repr

/-- Gregorian civil date (year, month, day) of a day number counted from
1970-01-01, for nonnegative day numbers; this is the standard
days-to-civil conversion that `time.gmtime` performs. -/
def civilFromDays (z₀ : Nat) : Nat × Nat × Nat :=
  let z := z₀ + 719468
  let era := z / 146097
  let doe := z % 146097
  let yoe := (doe - doe / 1460 + doe / 36524 - doe / 146096) / 365
  let y := yoe + era * 400
  let doy := doe - (365 * yoe + yoe / 4 - yoe / 100)
  let mp := (5 * doy + 2) / 153
  let d := doy - (153 * mp + 2) / 5 + 1
  let m := if mp < 10 then mp + 3 else mp - 9
  (if m ≤ 2 then y + 1 else y, m, d)

/-- Two-digit zero-padded decimal rendering. -/
def pad2 (n : Nat) : List Char := if n < 10 then '0' :: natDigits n else natDigits n

/-- Four-digit zero-padded decimal rendering. -/
def pad4 (n : Nat) : List Char :=
  List.replicate (4 - (natDigits n).length) '0' ++ natDigits n

/-- Embedding of `time.strftime('%Y-%m-%d', time.gmtime(ts))`: the UTC
calendar date of a Unix timestamp. -/
def dateStr (ts : Nat) : String :=
  let c := civilFromDays (ts / 86400)
  ⟨pad4 c.1 ++ '-' :: pad2 c.2.1 ++ '-' :: pad2 c.2.2⟩

/-- Per-date accumulator of `get_daily_forecast` (the lists built under
one key of the `daily_data` dict). -/
structure DayAcc where
  temps : List ℚ
  descriptions : List String
  icons : List String
  humidity : List ℚ
  wind_speeds : List ℚ
  pop : List ℚ
deriving DecidableEq, Repr

/-- Accumulator holding just the data of one forecast entry. -/
def initAcc (f : ForecastData) : DayAcc :=
  ⟨[f.temperature], [f.weather_description], [f.weather_icon],
   [f.humidity], [f.wind_speed], [f.pop]⟩

/-- Appending one forecast entry to a date's accumulator. -/
def pushAcc (a : DayAcc) (f : ForecastData) : DayAcc :=
  ⟨a.temps ++ [f.temperature], a.descriptions ++ [f.weather_description],
   a.icons ++ [f.weather_icon], a.humidity ++ [f.humidity],
   a.wind_speeds ++ [f.wind_speed], a.pop ++ [f.pop]⟩

/-- One step of filling the `daily_data` dict: update the existing key
in place or append a new key at the end (Python dict insertion
order). -/
def insertEntry : List (String × DayAcc) → String → ForecastData → List (String × DayAcc)
  | [], d, f => [(d, initAcc f)]
  | (k, v) :: rest, d, f =>
    if k = d then (k, pushAcc v f) :: rest
    else (k, v) :: insertEntry rest d f

/-- The `daily_data` dict of `get_daily_forecast` as an ordered
association list. -/
def buildGroups (fs : List ForecastData) : List (String × DayAcc) :=
  fs.foldl (fun acc f => insertEntry acc (dateStr f.timestamp) f) []

/-- Python `min` of a nonempty float list (the empty case never occurs
in `get_daily_forecast`; 0 stands in for Python's raised error). -/
def pyMin : List ℚ → ℚ
  | [] => 0
  | h :: t => t.foldl min h

/-- Python `max` of a nonempty float list. -/
def pyMax : List ℚ → ℚ
  | [] => 0
  | h :: t => t.foldl max h

/-- One step of filling the `icon_counts` dict:
`icon_counts[icon] = icon_counts.get(icon, 0) + 1`. -/
def bump : List (String × Nat) → String → List (String × Nat)
  | [], c => [(c, 1)]
  | (k, n) :: rest, c =>
    if k = c then (k, n + 1) :: rest
    else (k, n) :: bump rest c

/-- The `icon_counts` dict, keys in first-occurrence order. -/
def countOcc (icons : List String) : List (String × Nat) := icons.foldl bump []

/-- Python `max(icon_counts.items(), key=lambda x: x[1])[0]`: the
iteration keeps the current maximum unless a strictly greater count
appears, so the first key attaining the maximal count wins. -/
def maxByCount : List (String × Nat) → String
  | [] => ""
  | p :: rest => (rest.foldl (fun best q => if best.2 < q.2 then q else best) p).1

/-- One aggregated day of `get_daily_forecast` (the dict the source
appends to `daily_forecasts`); the spec calls it DailySummary. -/
structure DailySummary where
  date : String
  temp_min : ℚ
  temp_max : ℚ
  temp_avg : ℚ
  weather_icon : String
  weather_description : String
  humidity_avg : ℚ
  wind_speed_avg : ℚ
  pop_max : ℚ
deriving DecidableEq, Repr

/-- Aggregation of one date's accumulator, mirroring the body of the
second loop of `get_daily_forecast`. -/
def aggregateDay (date : String) (a : DayAcc) : DailySummary :=
  { date := date
    temp_min := pyMin a.temps
    temp_max := pyMax a.temps
    temp_avg := a.temps.sum / (a.temps.length : ℚ)
    weather_icon := maxByCount (countOcc a.icons)
    weather_description := a.descriptions.headD ""
    humidity_avg := a.humidity.sum / (a.humidity.length : ℚ)
    wind_speed_avg := a.wind_speeds.sum / (a.wind_speeds.length : ℚ)
    pop_max := if a.pop.isEmpty then 0 else pyMax a.pop }

/-- Embedding of `WeatherAPI.get_daily_forecast` on the list of
forecast entries (the HTTP fetch through `get_forecast` is abstracted
into the `forecasts` argument): group by UTC calendar date in
first-encounter order, truncate to `days`, aggregate each date. -/
def get_daily_forecast (forecasts : List ForecastData) (days : Nat := 5) : List DailySummary :=
  ((buildGroups forecasts).take days).map (fun p => aggregateDay p.1 p.2)

/-! ## Weekly forecast and its fallback (`api.py`) -/

/-- DailyForecastData of `api.py`. -/
structure DailyForecastData where
  timestamp : Int
  temp_day : ℚ
  temp_min : ℚ
  temp_max : ℚ
  temp_night : ℚ
  temp_eve : ℚ
  temp_morn : ℚ
  feels_like_day : ℚ
  humidity : Int
  wind_speed : ℚ
  weather_main : String
  weather_description : String
  weather_icon : String
  sunrise : Int
  sunset : Int
  uvi : ℚ
deriving DecidableEq, Repr

/-- WeeklyForecastData of `api.py`. -/
structure WeeklyForecastData where
  daily_forecasts : List DailyForecastData
deriving DecidableEq, Repr

/-- One entry of the `daily` array of a OneCall response, restricted to
the fields `get_weekly_forecast` reads. -/
structure OneCallDaily where
  dt : Int
  temp_day : ℚ
  temp_min : ℚ
  temp_max : ℚ
  temp_night : ℚ
  temp_eve : ℚ
  temp_morn : ℚ
  feels_like_day : ℚ
  humidity : Int
  wind_speed : ℚ
  weather_main : String
  weather_description : String
  weather_icon : String
  sunrise : Int
  sunset : Int
  uvi : ℚ
deriving DecidableEq, Repr

/-- Python `int(q)`: truncation toward zero. -/
def pyInt (q : ℚ) : Int := if 0 ≤ q then q.floor else -((-q).floor)

/-- Parse of a successful OneCall response:
`response_data.get('daily', [])[:7]` mapped to DailyForecastData. -/
def weeklyFromOneCall (daily : List OneCallDaily) : WeeklyForecastData :=
  ⟨(daily.take 7).map (fun d =>
    { timestamp := d.dt, temp_day := d.temp_day, temp_min := d.temp_min,
      temp_max := d.temp_max, temp_night := d.temp_night,
      temp_eve := d.temp_eve, temp_morn := d.temp_morn,
      feels_like_day := d.feels_like_day, humidity := d.humidity,
      wind_speed := d.wind_speed, weather_main := d.weather_main,
      weather_description := d.weather_description,
      weather_icon := d.weather_icon, sunrise := d.sunrise,
      sunset := d.sunset, uvi := d.uvi })⟩

/-- Fallback branch of `get_weekly_forecast`, building
DailyForecastData from the 5-day aggregation.  The timestamp comes from
`time.mktime(time.strptime(day['date'], '%Y-%m-%d'))`, which depends on
the process's local timezone; it is abstracted into the `mktime`
argument. -/
def weeklyFallback (mktime : String → Int) (daily_basic : List DailySummary) : WeeklyForecastData :=
  ⟨daily_basic.map (fun day =>
    { timestamp := mktime day.date
      temp_day := day.temp_avg
      temp_min := day.temp_min
      temp_max := day.temp_max
      temp_night := day.temp_min
      temp_eve := day.temp_avg
      temp_morn := day.temp_avg
      feels_like_day := day.temp_avg
      humidity := pyInt day.humidity_avg
      wind_speed := day.wind_speed_avg
      weather_main := day.weather_description
      weather_description := day.weather_description
      weather_icon := day.weather_icon
      sunrise := 0
      sunset := 0
      uvi := 0 })⟩

/-- Embedding of `WeatherAPI.get_weekly_forecast` after location
resolution: the OneCall request outcome is the `onecall` argument, and
the 5-day/3-hour entries a fallback would aggregate are
`basicForecasts`.  On any `WeatherAPIError` from the OneCall endpoint
the function falls back to `get_daily_forecast` with `days = 5`; both
branches return a `WeeklyForecastData`. -/
def get_weekly_forecast (mktime : String → Int) (basicForecasts : List ForecastData)
    (onecall : ReqOutcome (List OneCallDaily)) : WeeklyForecastData :=
  match onecall with
  | .fail _ => weeklyFallback mktime (get_daily_forecast basicForecasts 5)
  | .ok daily => weeklyFromOneCall daily

/-! ## Local storage (`storage.py`) -/

/-- FavoriteLocation of `storage.py`. -/
structure FavoriteLocation where
  name : String
  query : String
  lat : Option ℚ
  lon : Option ℚ
  added_date : Option String
deriving DecidableEq, Repr

/-- SearchHistoryItem of `storage.py`. -/
structure SearchHistoryItem where
  query : String
  timestamp : String
  success : Bool
deriving DecidableEq, Repr

/-- SavedWeatherRecord of `storage.py`; the `weather_data` dict is an
opaque payload never inspected by the store. -/
structure SavedWeatherRecord where
  location : String
  timestamp : String
  weather_data : String
  user_note : Option String
deriving DecidableEq, Repr

/-- Contents of the three JSON files of `storage.py`. -/
structure StoreState where
  favorites : List FavoriteLocation
  history : List SearchHistoryItem
  saved : List SavedWeatherRecord
deriving DecidableEq, Repr

/-- Stable insertion sort; the model of Python's stable builtin
`sorted` under the Boolean total preorder `le`. -/
def insertSorted (le : α → α → Bool) (x : α) : List α → List α
  | [] => [x]
  | y :: ys => if le x y then x :: y :: ys else y :: insertSorted le x ys

/-- Python `sorted(l, key=..., reverse=...)` with comparison `le`. -/
def pySorted (le : α → α → Bool) (l : List α) : List α :=
  l.foldr (insertSorted le) []

/-- Descending timestamp order of `sorted(history, key=lambda x:
x.timestamp, reverse=True)`. -/
def histDesc (a b : SearchHistoryItem) : Bool := strLe b.timestamp a.timestamp

/-- Descending timestamp order of saved weather records. -/
def savedDesc (a b : SavedWeatherRecord) : Bool := strLe b.timestamp a.timestamp

/-- Embedding of `WeatherStorage.get_search_history`: sort descending by
timestamp, take `limit`. -/
def get_search_history (history : List SearchHistoryItem) (limit : Nat := 20) :
    List SearchHistoryItem :=
  (pySorted histDesc history).take limit

/-- Embedding of `WeatherStorage.add_search_history` on the stored list:
load the top 100, drop entries with the same query case-insensitively,
prepend the new item, keep the 50 most recent. -/
def add_search_history (history : List SearchHistoryItem) (query : String)
    (now : String) (success : Bool) : List SearchHistoryItem :=
  let h := get_search_history history 100
  let h := h.filter (fun item => pyLower item.query ≠ pyLower query)
  (⟨query, now, success⟩ :: h).take 50

/-- Embedding of `WeatherStorage.get_favorites`: the stored list as
is. -/
def get_favorites (favorites : List FavoriteLocation) : List FavoriteLocation :=
  favorites

/-- Embedding of `WeatherStorage.get_saved_weather`: sort descending by
timestamp, take `limit`. -/
def get_saved_weather (saved : List SavedWeatherRecord) (limit : Nat := 50) :
    List SavedWeatherRecord :=
  (pySorted savedDesc saved).take limit

/-- The backup structure built by `WeatherStorage.export_data`; import
treats each collection as optional, so the fields are `Option`s that
`export_data` always populates. -/
structure ExportBundle where
  favorites : Option (List FavoriteLocation)
  history : Option (List SearchHistoryItem)
  saved_weather : Option (List SavedWeatherRecord)
  export_date : String
deriving DecidableEq, Repr

/-- Embedding of `WeatherStorage.export_data`: favorites in full, the
top 1000 of history and saved records, plus the export timestamp. -/
def export_data (st : StoreState) (now : String) : ExportBundle :=
  { favorites := some (get_favorites st.favorites)
    history := some (get_search_history st.history 1000)
    saved_weather := some (get_saved_weather st.saved 1000)
    export_date := now }

/-- Embedding of `WeatherStorage.import_data`: overwrite each collection
present in the bundle, leave absent ones untouched, report success. -/
def import_data (st : StoreState) (b : ExportBundle) : Bool × StoreState :=
  (true,
   { favorites := b.favorites.getD st.favorites
     history := b.history.getD st.history
     saved := b.saved_weather.getD st.saved })

/-! ## Specification-side definitions for the daily-aggregation claims

The following definitions are written from the words of the
specification (not from the source) and are compared against the code
embedding in the theorems for the aggregation claims. -/

/-- The distinct values of a list in the order of their first
occurrence. -/
def firstUniques {α : Type} [DecidableEq α] (l : List α) : List α :=
  l.foldl (fun ds x => if x ∈ ds then ds else ds ++ [x]) []

/-- Modelled from the spec: the calendar dates of the entries, in the
order the dates are first encountered. -/
def specFirstDates (fs : List ForecastData) : List String :=
  firstUniques (fs.map (fun f => dateStr f.timestamp))

/-- Modelled from the spec: the entries falling on one calendar
date. -/
def entriesOn (fs : List ForecastData) (d : String) : List ForecastData :=
  fs.filter (fun f => dateStr f.timestamp = d)

/-- Modelled from the spec: the most frequent icon code, ties broken by
the first-encountered icon among the tied codes — that is, among the
codes (in first-encounter order) the first one whose occurrence count in
the date's icon sequence is maximal. -/
def specMode (icons : List String) : String :=
  ((firstUniques icons).find?
    (fun c => icons.all (fun x => icons.count x ≤ icons.count c))).getD ""

/-! ## Concrete inputs used by witnesses and counterexamples -/

/-- Forecast entry with the given timestamp and temperature (other
fields fixed). -/
def mkEntry (ts : Nat) (temp : ℚ) : ForecastData :=
  ⟨ts, temp, temp, temp, "Clear", "clear sky", "01d", 50, 3, 0⟩

/-- Six entries on six consecutive UTC dates. -/
def sixDayEntries : List ForecastData :=
  [mkEntry 0 1, mkEntry 86400 2, mkEntry 172800 3,
   mkEntry 259200 4, mkEntry 345600 5, mkEntry 432000 6]

/-- Two entries on the same UTC date with different temperatures. -/
def twoSameDay : List ForecastData := [mkEntry 0 0, mkEntry 3600 10]

/-- Placeholder daily record for list indexing defaults in concrete
statements. -/
def dummyDaily : DailyForecastData :=
  ⟨0, 0, 0, 0, 0, 0, 0, 0, 0, 0, "", "", "", 0, 0, 0⟩

/-- The accumulator `buildGroups` produces for `twoSameDay`. -/
def accTwo : DayAcc :=
  ⟨[0, 10], ["clear sky", "clear sky"], ["01d", "01d"], [50, 50], [3, 3], [0, 0]⟩

/-- Placeholder daily summary for list indexing defaults in concrete
statements. -/
def dummySummary : DailySummary := ⟨"", 0, 0, 0, "", "", 0, 0, 0⟩

/-- Statement that one group of the `daily_data` dict holds exactly the
field lists of the entries falling on its date, in entry order. -/
def AccMatches (fs : List ForecastData) (p : String × DayAcc) : Prop :=
  p.2.temps = (entriesOn fs p.1).map ForecastData.temperature ∧
  p.2.descriptions = (entriesOn fs p.1).map ForecastData.weather_description ∧
  p.2.icons = (entriesOn fs p.1).map ForecastData.weather_icon ∧
  p.2.humidity = (entriesOn fs p.1).map ForecastData.humidity ∧
  p.2.wind_speeds = (entriesOn fs p.1).map ForecastData.wind_speed ∧
  p.2.pop = (entriesOn fs p.1).map ForecastData.pop

/-! # Theorems -/

/-- The loop of `_make_request` never falls through: with the fuel
matching the remaining attempts, some attempt returns or raises. -/
theorem makeRequest_no_fallthrough (α : Type) (transport : Nat → TransportResult α) :
    (make_request true transport).result ≠ .fail .loopFellThrough := by
  have key : ∀ fuel attempt, attempt + fuel = MAX_RETRIES + 1 → attempt ≤ MAX_RETRIES →
      (makeRequestGo transport MAX_RETRIES fuel attempt).result ≠ .fail .loopFellThrough := by
    intro fuel
    induction fuel with
    | zero => omega
    | succ f ih =>
      intro attempt hsum hle
      cases htr : transport attempt with
      | response status body =>
        cases hmap : mapHTTPStatus status with
        | none => simp [makeRequestGo, htr, hmap]
        | some e =>
          simp only [makeRequestGo, htr, hmap, ne_eq, ReqOutcome.fail.injEq]
          intro he
          subst he
          simp only [mapHTTPStatus] at hmap
          split_ifs at hmap <;> simp_all
      | timeout =>
        by_cases ha : attempt = MAX_RETRIES
        · subst ha
          simp [makeRequestGo, htr]
        · simpa [makeRequestGo, htr, ha] using ih (attempt + 1) (by omega) (by omega)
      | connError =>
        by_cases ha : attempt = MAX_RETRIES
        · subst ha
          simp [makeRequestGo, htr]
        · simpa [makeRequestGo, htr, ha] using ih (attempt + 1) (by omega) (by omega)
      | reqError msg =>
        by_cases ha : attempt = MAX_RETRIES
        · subst ha
          simp [makeRequestGo, htr]
        · simpa [makeRequestGo, htr, ha] using ih (attempt + 1) (by omega) (by omega)
  simpa [make_request] using key (MAX_RETRIES + 1) 0 rfl (by omega)

/-! ## Order lemmas for Python string comparison -/

theorem lexLt_trans : ∀ a b c : List Char,
    lexLt a b = true → lexLt b c = true → lexLt a c = true := by
  intro a
  induction a with
  | nil =>
    intro b c hab hbc
    cases b with
    | nil => simp [lexLt] at hab
    | cons y ys =>
      cases c with
      | nil => simp [lexLt] at hbc
      | cons z zs => simp [lexLt]
  | cons x xs ih =>
    intro b c hab hbc
    cases b with
    | nil => simp [lexLt] at hab
    | cons y ys =>
      cases c with
      | nil => simp [lexLt] at hbc
      | cons z zs =>
        simp only [lexLt, Bool.or_eq_true, Bool.and_eq_true, decide_eq_true_iff,
          beq_iff_eq] at hab hbc ⊢
        rcases hab with hab | ⟨hab, hab2⟩ <;> rcases hbc with hbc | ⟨hbc, hbc2⟩
        · exact Or.inl (lt_trans hab hbc)
        · exact Or.inl (hbc ▸ hab)
        · exact Or.inl (hab ▸ hbc)
        · exact Or.inr ⟨hab.trans hbc, ih ys zs hab2 hbc2⟩

theorem lexLt_asymm : ∀ a b : List Char, lexLt a b = true → lexLt b a = false := by
  intro a
  induction a with
  | nil =>
    intro b hab
    cases b with
    | nil => simp [lexLt] at hab
    | cons y ys => simp [lexLt]
  | cons x xs ih =>
    intro b hab
    cases b with
    | nil => simp [lexLt] at hab
    | cons y ys =>
      simp only [lexLt, Bool.or_eq_true, Bool.and_eq_true, decide_eq_true_iff,
        beq_iff_eq] at hab
      simp only [lexLt, Bool.or_eq_false_iff, Bool.and_eq_false_iff,
        decide_eq_false_iff_not, beq_eq_false_iff_ne, ne_eq]
      rcases hab with hab | ⟨hab, hab2⟩
      · exact ⟨lt_asymm hab, Or.inl (ne_of_gt hab)⟩
      · subst hab
        exact ⟨lt_irrefl x, Or.inr (ih ys hab2)⟩

theorem lexLt_connex : ∀ a b : List Char, lexLt a b = false → lexLt b a = false → a = b := by
  intro a
  induction a with
  | nil =>
    intro b h1 _
    cases b with
    | nil => rfl
    | cons y ys => simp [lexLt] at h1
  | cons x xs ih =>
    intro b h1 h2
    cases b with
    | nil => simp [lexLt] at h2
    | cons y ys =>
      simp only [lexLt, Bool.or_eq_false_iff, Bool.and_eq_false_iff,
        decide_eq_false_iff_not, beq_eq_false_iff_ne, ne_eq] at h1 h2
      obtain ⟨hxy, h1r⟩ := h1
      obtain ⟨hyx, h2r⟩ := h2
      have hxy2 : x = y := le_antisymm (not_lt.mp hyx) (not_lt.mp hxy)
      subst hxy2
      rcases h1r with h | h1r
      · exact absurd rfl h
      rcases h2r with h | h2r
      · exact absurd rfl h
      · rw [ih ys h1r h2r]

theorem strLe_total (s t : String) : strLe s t = true ∨ strLe t s = true := by
  by_cases h : lexLt t.data s.data = true
  · right
    simp [strLe, lexLt_asymm _ _ h]
  · left
    simp only [strLe, Bool.not_eq_true']
    simpa using h

theorem strLe_trans (a b c : String) (h1 : strLe a b = true) (h2 : strLe b c = true) :
    strLe a c = true := by
  simp only [strLe, Bool.not_eq_true'] at h1 h2 ⊢
  cases hca : lexLt c.data a.data
  · rfl
  · exfalso
    cases hab : lexLt a.data b.data
    · have hba : a.data = b.data := lexLt_connex _ _ hab h1
      rw [hba] at hca
      rw [hca] at h2
      simp at h2
    · have := lexLt_trans _ _ _ hca hab
      rw [this] at h2
      simp at h2


/-! ## Stable sort lemmas -/

theorem mem_insertSorted {α : Type} (le : α → α → Bool) (x : α) (l : List α) (z : α) :
    z ∈ insertSorted le x l ↔ z = x ∨ z ∈ l := by
  induction l with
  | nil => simp [insertSorted]
  | cons y ys ih =>
    by_cases h : le x y = true
    · simp only [insertSorted, h, if_true, List.mem_cons]
    · simp only [insertSorted, h, if_false, Bool.false_eq_true, List.mem_cons, ih]
      tauto

theorem insertSorted_perm {α : Type} (le : α → α → Bool) (x : α) (l : List α) :
    List.Perm (insertSorted le x l) (x :: l) := by
  induction l with
  | nil => simp [insertSorted]
  | cons y ys ih =>
    by_cases h : le x y = true
    · simp [insertSorted, h]
    · simp only [insertSorted, h, if_false, Bool.false_eq_true]
      exact (ih.cons y).trans (List.Perm.swap x y ys)

theorem pySorted_perm {α : Type} (le : α → α → Bool) (l : List α) :
    List.Perm (pySorted le l) l := by
  induction l with
  | nil => simp [pySorted]
  | cons a t ih =>
    have : pySorted le (a :: t) = insertSorted le a (pySorted le t) := rfl
    rw [this]
    exact (insertSorted_perm le a (pySorted le t)).trans (ih.cons a)

theorem insertSorted_pairwise {α : Type} (le : α → α → Bool)
    (total : ∀ a b, le a b = true ∨ le b a = true)
    (trans : ∀ a b c, le a b = true → le b c = true → le a c = true)
    (x : α) (l : List α) (h : l.Pairwise (fun a b => le a b = true)) :
    (insertSorted le x l).Pairwise (fun a b => le a b = true) := by
  induction l with
  | nil => simp [insertSorted]
  | cons y ys ih =>
    rcases List.pairwise_cons.mp h with ⟨hy, hys⟩
    by_cases hxy : le x y = true
    · simp only [insertSorted, hxy, if_true]
      refine List.pairwise_cons.mpr ⟨?_, h⟩
      intro z hz
      rcases List.mem_cons.mp hz with rfl | hz
      · exact hxy
      · exact trans x y z hxy (hy z hz)
    · simp only [insertSorted, hxy, if_false, Bool.false_eq_true]
      refine List.pairwise_cons.mpr ⟨?_, ih hys⟩
      intro z hz
      rcases (mem_insertSorted le x ys z).mp hz with hzx | hz
      · rw [hzx]
        rcases total x y with h1 | h1
        · exact absurd h1 hxy
        · exact h1
      · exact hy z hz

theorem pySorted_pairwise {α : Type} (le : α → α → Bool)
    (total : ∀ a b, le a b = true ∨ le b a = true)
    (trans : ∀ a b c, le a b = true → le b c = true → le a c = true)
    (l : List α) :
    (pySorted le l).Pairwise (fun a b => le a b = true) := by
  induction l with
  | nil => simp [pySorted]
  | cons a t ih =>
    have : pySorted le (a :: t) = insertSorted le a (pySorted le t) := rfl
    rw [this]
    exact insertSorted_pairwise le total trans a _ ih

theorem pySorted_of_pairwise {α : Type} (le : α → α → Bool) (l : List α)
    (h : l.Pairwise (fun a b => le a b = true)) : pySorted le l = l := by
  induction l with
  | nil => rfl
  | cons a t ih =>
    rcases List.pairwise_cons.mp h with ⟨ha, ht⟩
    have h1 : pySorted le (a :: t) = insertSorted le a (pySorted le t) := rfl
    rw [h1, ih ht]
    cases t with
    | nil => rfl
    | cons b bs => simp [insertSorted, ha b (by simp)]

theorem histDesc_total : ∀ a b : SearchHistoryItem,
    histDesc a b = true ∨ histDesc b a = true := by
  intro a b
  rcases strLe_total b.timestamp a.timestamp with h | h
  · exact Or.inl h
  · exact Or.inr h

theorem histDesc_trans : ∀ a b c : SearchHistoryItem,
    histDesc a b = true → histDesc b c = true → histDesc a c = true := by
  intro a b c h1 h2
  exact strLe_trans c.timestamp b.timestamp a.timestamp h2 h1

theorem savedDesc_total : ∀ a b : SavedWeatherRecord,
    savedDesc a b = true ∨ savedDesc b a = true := by
  intro a b
  rcases strLe_total b.timestamp a.timestamp with h | h
  · exact Or.inl h
  · exact Or.inr h

theorem savedDesc_trans : ∀ a b c : SavedWeatherRecord,
    savedDesc a b = true → savedDesc b c = true → savedDesc a c = true := by
  intro a b c h1 h2
  exact strLe_trans c.timestamp b.timestamp a.timestamp h2 h1

/-- Claim C9: adding a history item whose query matches an existing
entry case-insensitively first removes the old occurrence, prepends the
new entry and truncates to the cap of 50, so afterwards exactly one
entry with that query exists and it is first; `get_search_history`
returns entries sorted by timestamp descending, limited to the
requested count. -/
theorem history_dedup_front (history : List SearchHistoryItem) (query now : String)
    (success : Bool)
    (_hdup : ∃ item ∈ history, pyLower item.query = pyLower query) :
    (add_search_history history query now success).head? =
      some ⟨query, now, success⟩ ∧
    (add_search_history history query now success).countP
      (fun item => pyLower item.query == pyLower query) = 1 ∧
    (add_search_history history query now success).length ≤ 50 ∧
    (∀ limit, (get_search_history history limit).Pairwise
        (fun a b => histDesc a b = true) ∧
      (get_search_history history limit).length ≤ limit) := by
  have hadd : add_search_history history query now success =
      (⟨query, now, success⟩ : SearchHistoryItem) ::
        ((get_search_history history 100).filter
          (fun item => pyLower item.query ≠ pyLower query)).take 49 := by
    simp [add_search_history, List.take_succ_cons]
  refine ⟨by rw [hadd]; rfl, ?_, ?_, ?_⟩
  · rw [hadd]
    rw [List.countP_cons_of_pos _ _ (by simp)]
    have hzero : (((get_search_history history 100).filter
        (fun item => pyLower item.query ≠ pyLower query)).take 49).countP
        (fun item => pyLower item.query == pyLower query) = 0 := by
      apply List.countP_eq_zero.mpr
      intro item hitem
      have hmem := List.mem_of_mem_take hitem
      have := List.of_mem_filter hmem
      simpa using this
    omega
  · rw [hadd]
    simp only [List.length_cons]
    have := List.length_take_le 49
      ((get_search_history history 100).filter
        (fun item => pyLower item.query ≠ pyLower query))
    omega
  · intro limit
    constructor
    · exact (pySorted_pairwise histDesc histDesc_total histDesc_trans history).sublist
        (List.take_sublist _ _)
    · exact List.length_take_le _ _

/-- Witness for claim C9 at a concrete history. -/
theorem history_dedup_front_witness :
    (∃ item ∈ [(⟨"Seoul", "2021", true⟩ : SearchHistoryItem)],
        pyLower item.query = pyLower "SEOUL") ∧
    (add_search_history [⟨"Seoul", "2021", true⟩] "SEOUL" "2022" true).head? =
      some ⟨"SEOUL", "2022", true⟩ ∧
    (add_search_history [⟨"Seoul", "2021", true⟩] "SEOUL" "2022" true).countP
      (fun item => pyLower item.query == pyLower "SEOUL") = 1 ∧
    (add_search_history [⟨"Seoul", "2021", true⟩] "SEOUL" "2022" true).length ≤ 50 := by
  have h := history_dedup_front [⟨"Seoul", "2021", true⟩] "SEOUL" "2022" true
    ⟨⟨"Seoul", "2021", true⟩, by simp, by decide⟩
  exact ⟨⟨⟨"Seoul", "2021", true⟩, by simp, by decide⟩, h.1, h.2.1, h.2.2.1⟩


/-- Claim C10: for a store whose history and saved-record collections
hold at most 1000 entries (favorites unbounded), `import_data` applied
to `export_data` reports success and leaves the observable collections
unchanged under `get_favorites`, `get_search_history` and
`get_saved_weather` at every limit. -/
theorem export_import_roundtrip (st : StoreState) (now : String)
    (hh : st.history.length ≤ 1000) (hs : st.saved.length ≤ 1000) :
    (import_data st (export_data st now)).1 = true ∧
    get_favorites (import_data st (export_data st now)).2.favorites =
      get_favorites st.favorites ∧
    (∀ limit, get_search_history (import_data st (export_data st now)).2.history limit =
      get_search_history st.history limit) ∧
    (∀ limit, get_saved_weather (import_data st (export_data st now)).2.saved limit =
      get_saved_weather st.saved limit) := by
  have hist2 : (import_data st (export_data st now)).2.history =
      pySorted histDesc st.history := by
    simp only [import_data, export_data, Option.getD_some, get_search_history]
    apply List.take_of_length_le
    rw [(pySorted_perm histDesc st.history).length_eq]
    exact hh
  have saved2 : (import_data st (export_data st now)).2.saved =
      pySorted savedDesc st.saved := by
    simp only [import_data, export_data, Option.getD_some, get_saved_weather]
    apply List.take_of_length_le
    rw [(pySorted_perm savedDesc st.saved).length_eq]
    exact hs
  refine ⟨rfl, rfl, ?_, ?_⟩
  · intro limit
    rw [get_search_history, hist2,
      pySorted_of_pairwise histDesc _
        (pySorted_pairwise histDesc histDesc_total histDesc_trans st.history)]
    rfl
  · intro limit
    rw [get_saved_weather, saved2,
      pySorted_of_pairwise savedDesc _
        (pySorted_pairwise savedDesc savedDesc_total savedDesc_trans st.saved)]
    rfl

/-- Witness for claim C10 at a concrete one-record store. -/
theorem export_import_roundtrip_witness :
    ([(⟨"s", "2024", true⟩ : SearchHistoryItem)].length ≤ 1000) ∧
    ([(⟨"Seoul", "2024", "data", none⟩ : SavedWeatherRecord)].length ≤ 1000) ∧
    (import_data
      ⟨[⟨"home", "Seoul,KR", none, none, none⟩], [⟨"s", "2024", true⟩],
        [⟨"Seoul", "2024", "data", none⟩]⟩
      (export_data
        ⟨[⟨"home", "Seoul,KR", none, none, none⟩], [⟨"s", "2024", true⟩],
          [⟨"Seoul", "2024", "data", none⟩]⟩ "now")).1 = true ∧
    get_search_history
      (import_data
        ⟨[⟨"home", "Seoul,KR", none, none, none⟩], [⟨"s", "2024", true⟩],
          [⟨"Seoul", "2024", "data", none⟩]⟩
        (export_data
          ⟨[⟨"home", "Seoul,KR", none, none, none⟩], [⟨"s", "2024", true⟩],
            [⟨"Seoul", "2024", "data", none⟩]⟩ "now")).2.history 20 =
      get_search_history [⟨"s", "2024", true⟩] 20 := by
  have h := export_import_roundtrip
    ⟨[⟨"home", "Seoul,KR", none, none, none⟩], [⟨"s", "2024", true⟩],
      [⟨"Seoul", "2024", "data", none⟩]⟩ "now" (by decide) (by decide)
  exact ⟨by decide, by decide, h.1, h.2.2.1 20⟩


set_option maxRecDepth 40000 in
/-- Claim C3: Korean city translation precedes coordinate parsing —
whenever the translation differs from the (stripped) input, the parser
immediately returns the translated `{q}` query; an exact table match
wins for every table key; containment matching works in either
direction with the first table entry winning in insertion order (서울시
by key-in-input, 서울부산 resolved to Seoul by order); and
`parse_location_input "서울"` returns `{q: "Seoul,KR"}`. -/
theorem korean_translation_first :
    (∀ s : String, (pyStrip s).data ≠ [] →
        translate_korean_city (pyStrip s) ≠ pyStrip s →
        parse_location_input s = .ok (.q (translate_korean_city (pyStrip s)))) ∧
    (∀ p ∈ KOREAN_CITY_MAPPING, translate_korean_city p.1 = p.2) ∧
    translate_korean_city "서울시" = "Seoul,KR" ∧
    translate_korean_city "서울부산" = "Seoul,KR" ∧
    parse_location_input "서울" = .ok (.q "Seoul,KR") := by
  refine ⟨?_, by decide, by decide, by decide, by decide⟩
  intro s hne htr
  unfold parse_location_input
  rw [if_neg (by simpa [List.isEmpty_iff] using hne)]
  simp only []
  rw [if_pos htr]

/-- Witness for claim C3 at the input 서울. -/
theorem korean_translation_first_witness :
    (pyStrip "서울").data ≠ [] ∧
    translate_korean_city (pyStrip "서울") ≠ pyStrip "서울" ∧
    parse_location_input "서울" = .ok (.q (translate_korean_city (pyStrip "서울"))) :=
  ⟨by decide, by decide, korean_translation_first.1 "서울" (by decide) (by decide)⟩


/-! ## Grouping invariant of the daily aggregation -/

theorem firstUniques_append {α : Type} [DecidableEq α] (l : List α) (x : α) :
    firstUniques (l ++ [x]) =
      if x ∈ firstUniques l then firstUniques l else firstUniques l ++ [x] := by
  simp [firstUniques, List.foldl_append]

theorem mem_firstUniques {α : Type} [DecidableEq α] (l : List α) (x : α) :
    x ∈ firstUniques l ↔ x ∈ l := by
  have key : ∀ (l : List α) (acc : List α),
      x ∈ l.foldl (fun ds y => if y ∈ ds then ds else ds ++ [y]) acc ↔ x ∈ acc ∨ x ∈ l := by
    intro l
    induction l with
    | nil => simp
    | cons y t ih =>
      intro acc
      rw [List.foldl_cons, ih]
      by_cases hy : y ∈ acc
      · simp only [hy, if_true, List.mem_cons]
        constructor
        · rintro (h | h)
          · exact Or.inl h
          · exact Or.inr (Or.inr h)
        · rintro (h | rfl | h)
          · exact Or.inl h
          · exact Or.inl hy
          · exact Or.inr h
      · simp only [hy, if_false, List.mem_append, List.mem_singleton, List.mem_cons]
        tauto
  exact (key l []).trans (by simp)

theorem firstUniques_nodup {α : Type} [DecidableEq α] (l : List α) :
    (firstUniques l).Nodup := by
  have key : ∀ (l : List α) (acc : List α), acc.Nodup →
      (l.foldl (fun ds y => if y ∈ ds then ds else ds ++ [y]) acc).Nodup := by
    intro l
    induction l with
    | nil => exact fun acc h => h
    | cons y t ih =>
      intro acc hacc
      rw [List.foldl_cons]
      by_cases hy : y ∈ acc
      · simpa [hy] using ih acc hacc
      · refine ih _ ?_
        simp [List.nodup_append, hacc, hy]
  exact key l [] List.nodup_nil

theorem entriesOn_append (fs : List ForecastData) (f : ForecastData) (d : String) :
    entriesOn (fs ++ [f]) d =
      entriesOn fs d ++ (if dateStr f.timestamp = d then [f] else []) := by
  simp only [entriesOn, List.filter_append]
  congr 1
  by_cases h : dateStr f.timestamp = d <;> simp [h]

theorem entriesOn_eq_nil (fs : List ForecastData) (d : String)
    (h : d ∉ specFirstDates fs) : entriesOn fs d = [] := by
  simp only [entriesOn]
  rw [List.filter_eq_nil_iff]
  intro f hf
  intro hd
  apply h
  rw [specFirstDates, mem_firstUniques]
  exact List.mem_map.mpr ⟨f, hf, by simpa using hd⟩

theorem insertEntry_map_fst (acc : List (String × DayAcc)) (d : String) (f : ForecastData) :
    (insertEntry acc d f).map Prod.fst =
      if d ∈ acc.map Prod.fst then acc.map Prod.fst else acc.map Prod.fst ++ [d] := by
  induction acc with
  | nil => simp [insertEntry]
  | cons p rest ih =>
    obtain ⟨k, v⟩ := p
    by_cases h : k = d
    · subst h
      simp [insertEntry]
    · simp only [insertEntry, h, if_false, List.map_cons, ih, List.mem_cons]
      by_cases hmem : d ∈ rest.map Prod.fst <;>
        simp [hmem, h, Ne.symm h]

theorem insertEntry_invariant (prev : List ForecastData) (f : ForecastData)
    (acc : List (String × DayAcc))
    (hnd : (acc.map Prod.fst).Nodup)
    (hinv : ∀ p ∈ acc, AccMatches prev p)
    (hnew : dateStr f.timestamp ∉ acc.map Prod.fst →
      entriesOn prev (dateStr f.timestamp) = []) :
    ∀ p ∈ insertEntry acc (dateStr f.timestamp) f, AccMatches (prev ++ [f]) p := by
  induction acc with
  | nil =>
    intro p hp
    simp only [insertEntry, List.mem_singleton] at hp
    subst hp
    have hprev : entriesOn prev (dateStr f.timestamp) = [] := hnew (by simp)
    simp [AccMatches, entriesOn_append, hprev, initAcc]
  | cons q rest ih =>
    obtain ⟨k, v⟩ := q
    rw [List.map_cons] at hnd
    have hknot : k ∉ rest.map Prod.fst := (List.nodup_cons.mp hnd).1
    have hndr : (rest.map Prod.fst).Nodup := (List.nodup_cons.mp hnd).2
    intro p hp
    by_cases hk : k = dateStr f.timestamp
    · simp only [insertEntry, if_pos hk, List.mem_cons] at hp
      rcases hp with hpe | hp
      · subst hpe
        have hm := hinv (k, v) (by simp)
        simp only [AccMatches] at hm ⊢
        simp only [entriesOn_append, if_pos hk.symm]
        simp [pushAcc, hm.1, hm.2.1, hm.2.2.1, hm.2.2.2.1, hm.2.2.2.2.1, hm.2.2.2.2.2]
      · have hkey : p.1 ≠ dateStr f.timestamp := by
          intro he
          have hpm : p.1 ∈ rest.map Prod.fst := List.mem_map_of_mem Prod.fst hp
          rw [he, ← hk] at hpm
          exact hknot hpm
        have hm := hinv p (by simp [hp])
        simp only [AccMatches] at hm ⊢
        rw [entriesOn_append, if_neg (fun he => hkey he.symm), List.append_nil]
        exact hm
    · simp only [insertEntry, if_neg hk, List.mem_cons] at hp
      rcases hp with hpe | hp
      · subst hpe
        have hm := hinv (k, v) (by simp)
        simp only [AccMatches] at hm ⊢
        rw [entriesOn_append, if_neg (fun he => hk he.symm), List.append_nil]
        exact hm
      · refine ih hndr ?_ ?_ p hp
        · intro q hq
          exact hinv q (by simp [hq])
        · intro hmem
          apply hnew
          simp only [List.map_cons, List.mem_cons]
          rintro (h | h)
          · exact hk h.symm
          · exact hmem h


theorem buildGroups_spec (fs : List ForecastData) :
    (buildGroups fs).map Prod.fst = specFirstDates fs ∧
    ∀ p ∈ buildGroups fs, AccMatches fs p := by
  have key : ∀ (rem prev : List ForecastData) (acc : List (String × DayAcc)),
      acc.map Prod.fst = specFirstDates prev →
      (∀ p ∈ acc, AccMatches prev p) →
      (List.foldl (fun a f => insertEntry a (dateStr f.timestamp) f) acc rem).map Prod.fst =
        specFirstDates (prev ++ rem) ∧
      ∀ p ∈ List.foldl (fun a f => insertEntry a (dateStr f.timestamp) f) acc rem,
        AccMatches (prev ++ rem) p := by
    intro rem
    induction rem with
    | nil =>
      intro prev acc h1 h2
      rw [List.foldl_nil, List.append_nil]
      exact ⟨h1, h2⟩
    | cons f rem ih =>
      intro prev acc h1 h2
      rw [List.foldl_cons]
      have hnd : (acc.map Prod.fst).Nodup := by
        rw [h1]
        exact firstUniques_nodup _
      have hkeys2 : (insertEntry acc (dateStr f.timestamp) f).map Prod.fst =
          specFirstDates (prev ++ [f]) := by
        rw [insertEntry_map_fst, h1]
        simp only [specFirstDates, List.map_append, List.map_cons, List.map_nil,
          firstUniques_append]
      have hvals2 : ∀ p ∈ insertEntry acc (dateStr f.timestamp) f,
          AccMatches (prev ++ [f]) p := by
        apply insertEntry_invariant prev f acc hnd h2
        intro hnm
        rw [h1] at hnm
        exact entriesOn_eq_nil prev _ hnm
      have hres := ih (prev ++ [f]) _ hkeys2 hvals2
      rw [List.append_assoc] at hres
      exact hres
  exact key fs [] [] rfl (by intro p hp; simp at hp)

/-! ## Python min and max on nonempty lists -/

theorem le_foldl_max {α : Type} [LinearOrder α] (t : List α) :
    ∀ h : α, h ≤ t.foldl max h := by
  induction t with
  | nil => intro h; simp
  | cons a t ih =>
    intro h
    rw [List.foldl_cons]
    exact le_trans (le_max_left h a) (ih (max h a))

theorem foldl_max_mem {α : Type} [LinearOrder α] (t : List α) :
    ∀ h, t.foldl max h = h ∨ t.foldl max h ∈ t := by
  induction t with
  | nil => intro h; simp
  | cons a t ih =>
    intro h
    rw [List.foldl_cons]
    rcases ih (max h a) with he | hm
    · rcases max_choice h a with hc | hc
      · left
        rw [he, hc]
      · right
        rw [he, hc]
        simp
    · right
      simp [hm]

theorem foldl_max_ge {α : Type} [LinearOrder α] (t : List α) :
    ∀ h x, x ∈ t → x ≤ t.foldl max h := by
  induction t with
  | nil =>
    intro h x hx
    simp at hx
  | cons a t ih =>
    intro h x hx
    rw [List.foldl_cons]
    rcases List.mem_cons.mp hx with rfl | hx
    · exact le_trans (le_max_right h x) (le_foldl_max t (max h x))
    · exact ih (max h a) x hx

theorem pyMax_spec (l : List ℚ) (h : l ≠ []) :
    pyMax l ∈ l ∧ ∀ x ∈ l, x ≤ pyMax l := by
  obtain ⟨a, t, rfl⟩ := List.exists_cons_of_ne_nil h
  constructor
  · rcases foldl_max_mem t a with he | hm
    · simp [pyMax, he]
    · simp [pyMax, hm]
  · intro x hx
    rcases List.mem_cons.mp hx with rfl | hx
    · exact le_foldl_max t x
    · exact foldl_max_ge t a x hx

theorem foldl_min_le {α : Type} [LinearOrder α] (t : List α) :
    ∀ h : α, t.foldl min h ≤ h := by
  induction t with
  | nil => intro h; simp
  | cons a t ih =>
    intro h
    rw [List.foldl_cons]
    exact le_trans (ih (min h a)) (min_le_left h a)

theorem foldl_min_mem {α : Type} [LinearOrder α] (t : List α) :
    ∀ h, t.foldl min h = h ∨ t.foldl min h ∈ t := by
  induction t with
  | nil => intro h; simp
  | cons a t ih =>
    intro h
    rw [List.foldl_cons]
    rcases ih (min h a) with he | hm
    · rcases min_choice h a with hc | hc
      · left
        rw [he, hc]
      · right
        rw [he, hc]
        simp
    · right
      simp [hm]

theorem foldl_min_ge {α : Type} [LinearOrder α] (t : List α) :
    ∀ h x, x ∈ t → t.foldl min h ≤ x := by
  induction t with
  | nil =>
    intro h x hx
    simp at hx
  | cons a t ih =>
    intro h x hx
    rw [List.foldl_cons]
    rcases List.mem_cons.mp hx with rfl | hx
    · exact le_trans (foldl_min_le t (min h x)) (min_le_right h x)
    · exact ih (min h a) x hx

theorem pyMin_spec (l : List ℚ) (h : l ≠ []) :
    pyMin l ∈ l ∧ ∀ x ∈ l, pyMin l ≤ x := by
  obtain ⟨a, t, rfl⟩ := List.exists_cons_of_ne_nil h
  constructor
  · rcases foldl_min_mem t a with he | hm
    · simp [pyMin, he]
    · simp [pyMin, hm]
  · intro x hx
    rcases List.mem_cons.mp hx with rfl | hx
    · exact foldl_min_le t x
    · exact foldl_min_ge t a x hx

/-- Claim C6: every emitted daily summary aggregates a nonempty date
group; `temp_max` and `temp_min` are the maximum and minimum of the
date's entry temperatures, `temp_avg`, `humidity_avg` and
`wind_speed_avg` the arithmetic means, `pop_max` the maximum
precipitation probability, and `weather_description` the description of
the date's first entry. -/
theorem daily_aggregation_fields (fs : List ForecastData) (days : Nat)
    (day : DailySummary) (hd : day ∈ get_daily_forecast fs days) :
    entriesOn fs day.date ≠ [] ∧
    day.temp_max ∈ (entriesOn fs day.date).map ForecastData.temperature ∧
    (∀ t ∈ (entriesOn fs day.date).map ForecastData.temperature, t ≤ day.temp_max) ∧
    day.temp_min ∈ (entriesOn fs day.date).map ForecastData.temperature ∧
    (∀ t ∈ (entriesOn fs day.date).map ForecastData.temperature, day.temp_min ≤ t) ∧
    day.temp_avg = ((entriesOn fs day.date).map ForecastData.temperature).sum /
      ((entriesOn fs day.date).length : ℚ) ∧
    day.pop_max ∈ (entriesOn fs day.date).map ForecastData.pop ∧
    (∀ x ∈ (entriesOn fs day.date).map ForecastData.pop, x ≤ day.pop_max) ∧
    day.humidity_avg = ((entriesOn fs day.date).map ForecastData.humidity).sum /
      ((entriesOn fs day.date).length : ℚ) ∧
    day.wind_speed_avg = ((entriesOn fs day.date).map ForecastData.wind_speed).sum /
      ((entriesOn fs day.date).length : ℚ) ∧
    day.weather_description =
      ((entriesOn fs day.date).map ForecastData.weather_description).headD "" := by
  obtain ⟨p, hp_take, hagg⟩ := List.mem_map.mp hd
  have hp : p ∈ buildGroups fs := List.mem_of_mem_take hp_take
  have hmatch := (buildGroups_spec fs).2 p hp
  have hkey : p.1 ∈ specFirstDates fs := by
    rw [← (buildGroups_spec fs).1]
    exact List.mem_map_of_mem Prod.fst hp
  have hne : entriesOn fs p.1 ≠ [] := by
    rw [specFirstDates, mem_firstUniques] at hkey
    obtain ⟨f, hf, hdf⟩ := List.mem_map.mp hkey
    intro hnil
    have hfm : f ∈ entriesOn fs p.1 := List.mem_filter.mpr ⟨hf, by simpa using hdf⟩
    simp [hnil] at hfm
  obtain ⟨ht, hdesc, hicons, hhum, hwind, hpop⟩ := hmatch
  have hdate : day.date = p.1 := by rw [← hagg]; rfl
  rw [hdate]
  have htne : (entriesOn fs p.1).map ForecastData.temperature ≠ [] := by
    simpa using hne
  have hpne : (entriesOn fs p.1).map ForecastData.pop ≠ [] := by
    simpa using hne
  refine ⟨hne, ?_, ?_, ?_, ?_, ?_, ?_, ?_, ?_, ?_, ?_⟩
  · rw [← hagg]
    show pyMax p.2.temps ∈ _
    rw [ht]
    exact (pyMax_spec _ htne).1
  · intro t htm
    rw [← hagg]
    show t ≤ pyMax p.2.temps
    rw [ht]
    exact (pyMax_spec _ htne).2 t htm
  · rw [← hagg]
    show pyMin p.2.temps ∈ _
    rw [ht]
    exact (pyMin_spec _ htne).1
  · intro t htm
    rw [← hagg]
    show pyMin p.2.temps ≤ t
    rw [ht]
    exact (pyMin_spec _ htne).2 t htm
  · rw [← hagg]
    show p.2.temps.sum / (p.2.temps.length : ℚ) = _
    rw [ht, List.length_map]
  · rw [← hagg]
    show (if p.2.pop.isEmpty then (0 : ℚ) else pyMax p.2.pop) ∈ _
    rw [hpop, if_neg (by simpa [List.isEmpty_iff] using hpne)]
    exact (pyMax_spec _ hpne).1
  · intro x hxm
    rw [← hagg]
    show x ≤ if p.2.pop.isEmpty then (0 : ℚ) else pyMax p.2.pop
    rw [hpop, if_neg (by simpa [List.isEmpty_iff] using hpne)]
    exact (pyMax_spec _ hpne).2 x hxm
  · rw [← hagg]
    show p.2.humidity.sum / (p.2.humidity.length : ℚ) = _
    rw [hhum, List.length_map]
  · rw [← hagg]
    show p.2.wind_speeds.sum / (p.2.wind_speeds.length : ℚ) = _
    rw [hwind, List.length_map]
  · rw [← hagg]
    show p.2.descriptions.headD "" = _
    rw [hdesc]


/-- Witness for claim C6 on a concrete two-entry day. -/
theorem daily_aggregation_fields_witness :
    (aggregateDay "1970-01-01" accTwo ∈ get_daily_forecast twoSameDay 5) ∧
    entriesOn twoSameDay (aggregateDay "1970-01-01" accTwo).date ≠ [] ∧
    (aggregateDay "1970-01-01" accTwo).temp_avg =
      ((entriesOn twoSameDay (aggregateDay "1970-01-01" accTwo).date).map
        ForecastData.temperature).sum /
      ((entriesOn twoSameDay (aggregateDay "1970-01-01" accTwo).date).length : ℚ) := by
  have hlist : get_daily_forecast twoSameDay 5 = [aggregateDay "1970-01-01" accTwo] := rfl
  have hd : aggregateDay "1970-01-01" accTwo ∈ get_daily_forecast twoSameDay 5 := by
    rw [hlist]
    exact List.mem_singleton.mpr rfl
  have h := daily_aggregation_fields twoSameDay 5 _ hd
  exact ⟨hd, h.1, h.2.2.2.2.2.1⟩

/-! ## The icon mode -/

theorem bump_map (us : List String) (cnt : String → Nat) (x : String) (hnd : us.Nodup) :
    bump (us.map (fun c => (c, cnt c))) x =
      if x ∈ us then us.map (fun c => (c, if c = x then cnt c + 1 else cnt c))
      else us.map (fun c => (c, cnt c)) ++ [(x, 1)] := by
  induction us with
  | nil => simp [bump]
  | cons k us ih =>
    rw [List.nodup_cons] at hnd
    by_cases hk : k = x
    · subst hk
      simp only [List.map_cons, bump, if_pos rfl, List.mem_cons, true_or, if_true]
      congr 1
      apply List.map_congr_left
      intro c hc
      have : ¬ c = k := fun he => hnd.1 (he ▸ hc)
      simp [this]
    · simp only [List.map_cons, bump, if_neg hk, List.mem_cons]
      rw [ih hnd.2]
      by_cases hx : x ∈ us
      · rw [if_pos hx, if_pos (Or.inr hx)]
      · rw [if_neg hx, if_neg (by rintro (h | h); exacts [hk h.symm, hx h])]
        rfl

theorem countOcc_spec (l : List String) :
    countOcc l = (firstUniques l).map (fun c => (c, l.count c)) := by
  have key : ∀ (rem done : List String),
      (List.foldl bump ((firstUniques done).map (fun c => (c, done.count c))) rem) =
        (firstUniques (done ++ rem)).map (fun c => (c, (done ++ rem).count c)) := by
    intro rem
    induction rem with
    | nil =>
      intro done
      simp
    | cons x rem ih =>
      intro done
      rw [List.foldl_cons]
      have hstep : bump ((firstUniques done).map (fun c => (c, done.count c))) x =
          (firstUniques (done ++ [x])).map (fun c => (c, (done ++ [x]).count c)) := by
        rw [bump_map _ _ _ (firstUniques_nodup done), firstUniques_append]
        by_cases hx : x ∈ firstUniques done
        · rw [if_pos hx, if_pos hx]
          apply List.map_congr_left
          intro c _
          by_cases hc : c = x
          · subst hc
            simp [List.count_append]
          · simp [List.count_append, List.count_singleton, hc,
              fun h : c == x => hc (by simpa using h)]
        · rw [if_neg hx, if_neg hx, List.map_append]
          congr 1
          · apply List.map_congr_left
            intro c hc
            have hcx : ¬ c = x := fun he => hx (he ▸ hc)
            simp [List.count_append, List.count_singleton, hcx,
              fun h : c == x => hcx (by simpa using h)]
          · have hx2 : x ∉ done := fun h => hx ((mem_firstUniques done x).mpr h)
            simp [List.count_append, List.count_singleton, List.count_eq_zero_of_not_mem hx2]
      rw [hstep, ih (done ++ [x]), List.append_assoc]
      rfl
  have h0 := key l []
  simpa [firstUniques] using h0


theorem map_split {α β : Type} (f : α → β) (l : List α) (l1 l2 : List β) (b : β)
    (h : l.map f = l1 ++ b :: l2) :
    ∃ v1 a v2, l = v1 ++ a :: v2 ∧ f a = b ∧ v1.map f = l1 ∧ v2.map f = l2 := by
  induction l1 generalizing l with
  | nil =>
    cases l with
    | nil => simp at h
    | cons a t =>
      rw [List.map_cons, List.nil_append] at h
      rcases List.cons.injEq _ _ _ _ ▸ h with ⟨h1, h2⟩
      exact ⟨[], a, t, rfl, h1, rfl, h2⟩
  | cons c l1 ih =>
    cases l with
    | nil => simp at h
    | cons a t =>
      rw [List.map_cons, List.cons_append] at h
      rcases List.cons.injEq _ _ _ _ ▸ h with ⟨h1, h2⟩
      obtain ⟨v1, x, v2, ht, hfx, hm1, hm2⟩ := ih t h2
      exact ⟨a :: v1, x, v2, by rw [ht, List.cons_append], hfx, by rw [List.map_cons, hm1, h1], hm2⟩

theorem find?_eq_some_of_split {α : Type} (p : α → Bool) (l1 l2 : List α) (a : α)
    (h1 : ∀ x ∈ l1, p x = false) (h2 : p a = true) :
    (l1 ++ a :: l2).find? p = some a := by
  induction l1 with
  | nil => simp [List.find?_cons, h2]
  | cons c l1 ih =>
    rw [List.cons_append, List.find?_cons, h1 c (by simp)]
    exact ih (fun x hx => h1 x (by simp [hx]))

theorem foldl_pick_spec (p : String × Nat) (rest : List (String × Nat)) :
    ∃ l1 l2,
      p :: rest =
        l1 ++ (rest.foldl (fun best q => if best.2 < q.2 then q else best) p) :: l2 ∧
      (∀ q ∈ l1, q.2 < (rest.foldl (fun best q => if best.2 < q.2 then q else best) p).2) ∧
      (∀ q ∈ p :: rest,
        q.2 ≤ (rest.foldl (fun best q => if best.2 < q.2 then q else best) p).2) := by
  induction rest generalizing p with
  | nil => exact ⟨[], [], rfl, by simp, by simp⟩
  | cons q rest ih =>
    rw [List.foldl_cons]
    by_cases hpq : p.2 < q.2
    · rw [if_pos hpq]
      obtain ⟨l1, l2, hsplit, hlt, hle⟩ := ih q
      refine ⟨p :: l1, l2, ?_, ?_, ?_⟩
      · rw [List.cons_append, ← hsplit]
      · intro r hr
        rcases List.mem_cons.mp hr with he | hr
        · rw [he]
          exact lt_of_lt_of_le hpq (hle q (by simp))
        · exact hlt r hr
      · intro r hr
        rcases List.mem_cons.mp hr with he | hr
        · rw [he]
          exact le_of_lt (lt_of_lt_of_le hpq (hle q (by simp)))
        · exact hle r hr
    · rw [if_neg hpq]
      obtain ⟨l1, l2, hsplit, hlt, hle⟩ := ih p
      cases l1 with
      | nil =>
        rw [List.nil_append] at hsplit
        have h1 : rest.foldl (fun best q => if best.2 < q.2 then q else best) p = p := by
          have := (List.cons.injEq _ _ _ _ ▸ hsplit).1
          exact this.symm
        refine ⟨[], q :: rest, ?_, by simp, ?_⟩
        · rw [List.nil_append, h1]
        · intro r hr
          rw [h1]
          rcases List.mem_cons.mp hr with he | hr
          · rw [he]
          · rcases List.mem_cons.mp hr with he | hr
            · rw [he]
              exact le_of_not_lt hpq
            · have := hle r (by simp [hr])
              rw [h1] at this
              exact this
      | cons a l1 =>
        rw [List.cons_append] at hsplit
        have ha : a = p := ((List.cons.injEq _ _ _ _ ▸ hsplit).1).symm
        have hrest : rest = l1 ++ (rest.foldl (fun best q => if best.2 < q.2 then q else best) p) :: l2 :=
          (List.cons.injEq _ _ _ _ ▸ hsplit).2
        refine ⟨p :: q :: l1, l2, ?_, ?_, ?_⟩
        · rw [List.cons_append, List.cons_append, ← hrest]
        · intro r hr
          rcases List.mem_cons.mp hr with he | hr
          · rw [he]
            have := hlt a (by simp)
            rw [ha] at this
            exact this
          rcases List.mem_cons.mp hr with he | hr
          · rw [he]
            have hp := hlt a (by simp)
            rw [ha] at hp
            exact lt_of_le_of_lt (le_of_not_lt hpq) hp
          · exact hlt r (by simp [hr])
        · intro r hr
          rcases List.mem_cons.mp hr with he | hr
          · rw [he]
            exact hle p (by simp)
          rcases List.mem_cons.mp hr with he | hr
          · rw [he]
            exact le_trans (le_of_not_lt hpq) (hle p (by simp))
          · exact hle r (by simp [hr])

theorem maxByCount_eq_specMode (l : List String) (hne : l ≠ []) :
    maxByCount (countOcc l) = specMode l := by
  have husne : firstUniques l ≠ [] := by
    obtain ⟨a, t, rfl⟩ := List.exists_cons_of_ne_nil hne
    intro h
    have ham : a ∈ firstUniques (a :: t) := (mem_firstUniques _ _).mpr (by simp)
    simp [h] at ham
  obtain ⟨u, us, hus⟩ := List.exists_cons_of_ne_nil husne
  rw [countOcc_spec, hus, List.map_cons]
  obtain ⟨l1, l2, hsplit, hlt, hle⟩ :=
    foldl_pick_spec (u, l.count u) (us.map (fun c => (c, l.count c)))
  set r := (us.map (fun c => (c, l.count c))).foldl
    (fun best q => if best.2 < q.2 then q else best) (u, l.count u) with hr
  have hsplit2 : (u :: us).map (fun c => (c, l.count c)) = l1 ++ r :: l2 := by
    rw [List.map_cons]
    exact hsplit
  obtain ⟨v1, cstar, v2, hv, hfc, hm1, _⟩ :=
    map_split (fun c => (c, l.count c)) (u :: us) l1 l2 r hsplit2
  have hrfst : r.1 = cstar := by rw [← hfc]
  have hrsnd : r.2 = l.count cstar := by rw [← hfc]
  have hcstar_mem_l : cstar ∈ l := by
    rw [← mem_firstUniques, hus, hv]
    simp
  have hple : ∀ x ∈ l, l.count x ≤ l.count cstar := by
    intro x hx
    have hxu : x ∈ u :: us := by
      rw [← hus, mem_firstUniques]
      exact hx
    have : (x, l.count x) ∈ (u :: us).map (fun c => (c, l.count c)) :=
      List.mem_map_of_mem _ hxu
    have hxle := hle (x, l.count x) (by rw [List.map_cons] at this; exact this)
    rw [hrsnd] at hxle
    exact hxle
  have hpred : (fun c => l.all (fun x => l.count x ≤ l.count c)) cstar = true := by
    simp only [List.all_eq_true, decide_eq_true_iff]
    exact hple
  have hprefix : ∀ x ∈ v1, (fun c => l.all (fun x => l.count x ≤ l.count c)) x = false := by
    intro x hx
    have hxl1 : (x, l.count x) ∈ l1 := by
      rw [← hm1]
      exact List.mem_map_of_mem _ hx
    have hxlt := hlt (x, l.count x) hxl1
    rw [hrsnd] at hxlt
    simp only [List.all_eq_false, decide_eq_true_iff]
    refine ⟨cstar, hcstar_mem_l, ?_⟩
    simp only [decide_eq_false_iff_not, not_le]
    exact hxlt
  have hfind : ((u :: us).find? (fun c => l.all (fun x => l.count x ≤ l.count c))) =
      some cstar := by
    rw [hv]
    exact find?_eq_some_of_split _ v1 v2 cstar hprefix hpred
  rw [specMode, hus, hfind]
  simp only [maxByCount, Option.getD_some]
  rw [← hr, hrfst]


/-- Counterexample to the hard cap of claim C7: six entries on six
distinct UTC dates with a requested day count of six yield six daily
summaries, so no cap of five is enforced by the code. -/
theorem daily_cap_counterexample :
    (get_daily_forecast sixDayEntries 6).length = 6 ∧
    ¬ ((get_daily_forecast sixDayEntries 6).length ≤ 5) := by
  constructor <;> decide

/-- Claim C7 (amended): `get_daily_forecast` groups entries by UTC
calendar date, emits summaries in first-encounter order truncated to
the requested day count (default 5; the code enforces no separate hard
cap of 5 — see `daily_cap_counterexample`), never produces a date not
covered by the input, and picks each day's icon as the most frequent
icon code with ties broken by the first-encountered icon. -/
theorem daily_grouping_order (fs : List ForecastData) (days : Nat) :
    (get_daily_forecast fs days).map DailySummary.date = (specFirstDates fs).take days ∧
    (get_daily_forecast fs days).length ≤ days ∧
    ∀ day ∈ get_daily_forecast fs days,
      (∃ f ∈ fs, dateStr f.timestamp = day.date) ∧
      day.weather_icon = specMode ((entriesOn fs day.date).map ForecastData.weather_icon) := by
  refine ⟨?_, ?_, ?_⟩
  · rw [get_daily_forecast, List.map_map]
    have hfun : (DailySummary.date ∘ fun p : String × DayAcc => aggregateDay p.1 p.2) =
        Prod.fst := by
      funext p
      rfl
    rw [hfun, List.map_take, (buildGroups_spec fs).1]
  · simp only [get_daily_forecast, List.length_map]
    exact List.length_take_le _ _
  · intro day hd
    obtain ⟨p, hp_take, hagg⟩ := List.mem_map.mp hd
    have hp : p ∈ buildGroups fs := List.mem_of_mem_take hp_take
    have hmatch := (buildGroups_spec fs).2 p hp
    have hkey : p.1 ∈ specFirstDates fs := by
      rw [← (buildGroups_spec fs).1]
      exact List.mem_map_of_mem Prod.fst hp
    have hdate : day.date = p.1 := by rw [← hagg]; rfl
    have hex : ∃ f ∈ fs, dateStr f.timestamp = day.date := by
      rw [specFirstDates, mem_firstUniques] at hkey
      obtain ⟨f, hf, hdf⟩ := List.mem_map.mp hkey
      exact ⟨f, hf, by rw [hdate, hdf]⟩
    refine ⟨hex, ?_⟩
    have hne : entriesOn fs p.1 ≠ [] := by
      obtain ⟨f, hf, hdf⟩ := hex
      intro hnil
      have hfm : f ∈ entriesOn fs p.1 :=
        List.mem_filter.mpr ⟨hf, by simp [hdf, hdate]⟩
      simp [hnil] at hfm
    have hicne : p.2.icons ≠ [] := by
      rw [hmatch.2.2.1]
      simpa using hne
    rw [hdate, ← hagg]
    show maxByCount (countOcc p.2.icons) = _
    rw [maxByCount_eq_specMode p.2.icons (by rw [hmatch.2.2.1]; simpa using hne)]
    rw [hmatch.2.2.1]

/-- Witness for claim C7 (amended) at a concrete input. -/
theorem daily_grouping_order_witness :
    (get_daily_forecast twoSameDay 5).map DailySummary.date =
      (specFirstDates twoSameDay).take 5 ∧
    (get_daily_forecast twoSameDay 5).length ≤ 5 ∧
    (∃ f ∈ twoSameDay,
      dateStr f.timestamp = (aggregateDay "1970-01-01" accTwo).date) ∧
    (aggregateDay "1970-01-01" accTwo).weather_icon =
      specMode ((entriesOn twoSameDay (aggregateDay "1970-01-01" accTwo).date).map
        ForecastData.weather_icon) := by
  have h := daily_grouping_order twoSameDay 5
  have hlist : get_daily_forecast twoSameDay 5 = [aggregateDay "1970-01-01" accTwo] := rfl
  have hmem : aggregateDay "1970-01-01" accTwo ∈ get_daily_forecast twoSameDay 5 := by
    rw [hlist]
    exact List.mem_singleton.mpr rfl
  exact ⟨h.1, h.2.1, (h.2.2 _ hmem).1, (h.2.2 _ hmem).2⟩


/-- Counterexample to claim C8 as stated: in the fallback built for two
same-date entries with temperatures 0 and 10, the night temperature is
the daily minimum 0, not the daily average 5 that the claim asserts for
all three of night, morning and evening. -/
theorem weekly_fallback_counterexample :
    ((get_weekly_forecast (fun _ => 0) twoSameDay
        (.fail .timeoutExhausted)).daily_forecasts.headD dummyDaily).temp_night ≠
    ((get_weekly_forecast (fun _ => 0) twoSameDay
        (.fail .timeoutExhausted)).daily_forecasts.headD dummyDaily).temp_morn := by
  have hlist : (get_weekly_forecast (fun _ => 0) twoSameDay
      (.fail .timeoutExhausted)).daily_forecasts.headD dummyDaily =
      { timestamp := 0, temp_day := (aggregateDay "1970-01-01" accTwo).temp_avg,
        temp_min := (aggregateDay "1970-01-01" accTwo).temp_min,
        temp_max := (aggregateDay "1970-01-01" accTwo).temp_max,
        temp_night := (aggregateDay "1970-01-01" accTwo).temp_min,
        temp_eve := (aggregateDay "1970-01-01" accTwo).temp_avg,
        temp_morn := (aggregateDay "1970-01-01" accTwo).temp_avg,
        feels_like_day := (aggregateDay "1970-01-01" accTwo).temp_avg,
        humidity := pyInt (aggregateDay "1970-01-01" accTwo).humidity_avg,
        wind_speed := (aggregateDay "1970-01-01" accTwo).wind_speed_avg,
        weather_main := (aggregateDay "1970-01-01" accTwo).weather_description,
        weather_description := (aggregateDay "1970-01-01" accTwo).weather_description,
        weather_icon := (aggregateDay "1970-01-01" accTwo).weather_icon,
        sunrise := 0, sunset := 0, uvi := 0 } := rfl
  rw [hlist]
  show (aggregateDay "1970-01-01" accTwo).temp_min ≠ (aggregateDay "1970-01-01" accTwo).temp_avg
  show pyMin accTwo.temps ≠ accTwo.temps.sum / (accTwo.temps.length : ℚ)
  norm_num [accTwo, pyMin]

/-- Claim C8 (amended): whenever the OneCall endpoint raises a client
error, `get_weekly_forecast` falls back to the 5-day aggregation and
returns the same `WeeklyForecastData` type, with, for every day, the
morning and evening temperatures (and `temp_day` and feels-like)
defaulted to the daily average, the night temperature defaulted to the
daily minimum (not the average as the claim stated), and sunrise,
sunset and UV index defaulted to zero. -/
theorem weekly_fallback_shape (mktime : String → Int) (basic : List ForecastData)
    (e : WAError) :
    (get_weekly_forecast mktime basic (.fail e)).daily_forecasts.length =
      (get_daily_forecast basic 5).length ∧
    ∀ i (hi : i < (get_weekly_forecast mktime basic (.fail e)).daily_forecasts.length)
      (hi2 : i < (get_daily_forecast basic 5).length),
      ((get_weekly_forecast mktime basic (.fail e)).daily_forecasts.get ⟨i, hi⟩).temp_night =
        ((get_daily_forecast basic 5).get ⟨i, hi2⟩).temp_min ∧
      ((get_weekly_forecast mktime basic (.fail e)).daily_forecasts.get ⟨i, hi⟩).temp_eve =
        ((get_daily_forecast basic 5).get ⟨i, hi2⟩).temp_avg ∧
      ((get_weekly_forecast mktime basic (.fail e)).daily_forecasts.get ⟨i, hi⟩).temp_morn =
        ((get_daily_forecast basic 5).get ⟨i, hi2⟩).temp_avg ∧
      ((get_weekly_forecast mktime basic (.fail e)).daily_forecasts.get ⟨i, hi⟩).temp_day =
        ((get_daily_forecast basic 5).get ⟨i, hi2⟩).temp_avg ∧
      ((get_weekly_forecast mktime basic (.fail e)).daily_forecasts.get ⟨i, hi⟩).sunrise = 0 ∧
      ((get_weekly_forecast mktime basic (.fail e)).daily_forecasts.get ⟨i, hi⟩).sunset = 0 ∧
      ((get_weekly_forecast mktime basic (.fail e)).daily_forecasts.get ⟨i, hi⟩).uvi = 0 := by
  constructor
  · simp [get_weekly_forecast, weeklyFallback]
  · intro i hi hi2
    have hget : (get_weekly_forecast mktime basic (.fail e)).daily_forecasts.get ⟨i, hi⟩ =
        (fun day : DailySummary =>
          ({ timestamp := mktime day.date, temp_day := day.temp_avg,
             temp_min := day.temp_min, temp_max := day.temp_max,
             temp_night := day.temp_min, temp_eve := day.temp_avg,
             temp_morn := day.temp_avg, feels_like_day := day.temp_avg,
             humidity := pyInt day.humidity_avg, wind_speed := day.wind_speed_avg,
             weather_main := day.weather_description,
             weather_description := day.weather_description,
             weather_icon := day.weather_icon, sunrise := 0, sunset := 0,
             uvi := 0 } : DailyForecastData))
          ((get_daily_forecast basic 5).get ⟨i, hi2⟩) := by
      show ((get_daily_forecast basic 5).map _).get _ = _
      rw [List.get_map]
    rw [hget]
    exact ⟨rfl, rfl, rfl, rfl, rfl, rfl, rfl⟩

/-- Witness for claim C8 (amended) at a concrete input. -/
theorem weekly_fallback_shape_witness :
    (get_weekly_forecast (fun _ => 0) twoSameDay
      (.fail .timeoutExhausted)).daily_forecasts.length =
      (get_daily_forecast twoSameDay 5).length ∧
    ((get_weekly_forecast (fun _ => 0) twoSameDay
      (.fail .timeoutExhausted)).daily_forecasts.headD dummyDaily).temp_night =
      ((get_daily_forecast twoSameDay 5).headD dummySummary).temp_min := by
  have h := weekly_fallback_shape (fun _ => 0) twoSameDay .timeoutExhausted
  refine ⟨h.1, ?_⟩
  have h0 := (h.2 0 (by decide) (by decide)).1
  simpa using h0

/-- Claim C4: when the transport raises a timeout or connection failure
on every attempt, `_make_request` performs exactly MAX_RETRIES + 1 HTTP
calls, sleeps 2 ^ attempt seconds between consecutive attempts, and then
raises the matching exhaustion `WeatherAPIError`; no attempt occurs
beyond the cap. -/
theorem retry_exhaustion (α : Type) (transport : Nat → TransportResult α)
    (h : ∀ i, i ≤ MAX_RETRIES → transport i = .timeout ∨ transport i = .connError) :
    (make_request true transport).calls = MAX_RETRIES + 1 ∧
    (make_request true transport).sleeps = (List.range MAX_RETRIES).map (fun a => 2 ^ a) ∧
    ((make_request true transport).result = .fail .timeoutExhausted ∨
      (make_request true transport).result = .fail .connExhausted) := by
  have h0 := h 0 (by decide)
  have h1 := h 1 (by decide)
  have h2 := h 2 (by decide)
  rcases h0 with h0 | h0 <;> rcases h1 with h1 | h1 <;> rcases h2 with h2 | h2 <;>
    simp [make_request, makeRequestGo, MAX_RETRIES, h0, h1, h2, List.range_succ]

/-- Witness for claim C4 with a transport that always times out. -/
theorem retry_exhaustion_witness :
    (∀ i, i ≤ MAX_RETRIES →
      (fun _ => (TransportResult.timeout : TransportResult Unit)) i = .timeout ∨
      (fun _ => (TransportResult.timeout : TransportResult Unit)) i = .connError) ∧
    (make_request true (fun _ => (TransportResult.timeout : TransportResult Unit))).calls =
      MAX_RETRIES + 1 ∧
    (make_request true (fun _ => (TransportResult.timeout : TransportResult Unit))).sleeps =
      (List.range MAX_RETRIES).map (fun a => 2 ^ a) ∧
    ((make_request true (fun _ => (TransportResult.timeout : TransportResult Unit))).result =
        .fail .timeoutExhausted ∨
      (make_request true (fun _ => (TransportResult.timeout : TransportResult Unit))).result =
        .fail .connExhausted) :=
  ⟨fun _ _ => Or.inl rfl, retry_exhaustion Unit _ (fun _ _ => Or.inl rfl)⟩

/-- Claim C5: an HTTP error status (401 → invalid credentials, 404 →
location not found, 429 → rate-limited, any other status of at least
400 → generic API error) raises the mapped `WeatherAPIError` after
exactly one HTTP call, with no retry and no sleep. -/
theorem http_error_no_retry (α : Type) (transport : Nat → TransportResult α)
    (status : Nat) (body : α)
    (hresp : transport 0 = .response status body) (herr : 400 ≤ status) :
    make_request true transport =
      ⟨.fail (if status = 401 then .invalidKey
              else if status = 404 then .notFound
              else if status = 429 then .rateLimited
              else .apiError status), 1, []⟩ := by
  simp only [make_request, MAX_RETRIES, makeRequestGo, hresp, mapHTTPStatus, Bool.not_true,
    Bool.false_eq_true, if_false]
  split_ifs <;> simp_all [mapHTTPStatus]

/-- Witness for claim C5 at a single 404 response. -/
theorem http_error_no_retry_witness :
    ((400 : Nat) ≤ 404) ∧
    make_request true (fun _ => (TransportResult.response 404 () : TransportResult Unit)) =
      ⟨.fail .notFound, 1, []⟩ := by
  refine ⟨by decide, ?_⟩
  have h := http_error_no_retry Unit (fun _ => .response 404 ()) 404 () rfl (by decide)
  simpa using h


/-! ## Coordinate strings pass through stripping and translation -/

theorem dropWhile_eq_self_of {p : Char → Bool} {l : List Char}
    (h : ∀ c ∈ l, p c = false) : l.dropWhile p = l := by
  cases l with
  | nil => rfl
  | cons a t => simp [List.dropWhile_cons, h a (by simp)]

theorem stripChars_eq_self {l : List Char} (h : ∀ c ∈ l, isPySpace c = false) :
    stripChars l = l := by
  rw [stripChars, dropWhile_eq_self_of h,
    dropWhile_eq_self_of (fun c hc => h c (List.mem_reverse.mp hc)), List.reverse_reverse]

theorem space_not_coordChar {c : Char} (h : isPySpace c = true) :
    isCoordChar c = false := by
  simp only [isPySpace, Bool.or_eq_true, beq_iff_eq] at h
  rcases h with ((((h | h) | h) | h) | h) | h <;> subst h <;> decide

theorem coordChar_not_space {c : Char} (h : isCoordChar c = true) :
    isPySpace c = false := by
  cases hs : isPySpace c
  · rfl
  · rw [space_not_coordChar hs] at h
    exact absurd h (by simp)


theorem listStarts_subset : ∀ n h : List Char, listStarts n h = true → ∀ c ∈ n, c ∈ h := by
  intro n
  induction n with
  | nil =>
    intro h _ c hc
    simp at hc
  | cons a as ih =>
    intro h hs c hc
    cases h with
    | nil => simp [listStarts] at hs
    | cons b bs =>
      simp only [listStarts, Bool.and_eq_true, beq_iff_eq] at hs
      rcases List.mem_cons.mp hc with he | hc
      · rw [he, hs.1]
        simp
      · exact List.mem_cons_of_mem b (ih bs hs.2 c hc)

theorem listHasSub_subset : ∀ n h : List Char, listHasSub n h = true → ∀ c ∈ n, c ∈ h := by
  intro n h
  induction h with
  | nil =>
    intro hs c hc
    cases n with
    | nil => simp at hc
    | cons a as => simp [listHasSub, listStarts] at hs
  | cons b bs ih =>
    intro hs c hc
    rcases Bool.or_eq_true _ _ ▸ hs with hst | hsub
    · exact listStarts_subset n (b :: bs) hst c hc
    · exact List.mem_cons_of_mem b (ih hsub c hc)

set_option maxRecDepth 40000 in
theorem table_keys_noncoord :
    ∀ p ∈ KOREAN_CITY_MAPPING, p.1.data ≠ [] ∧ ∀ c ∈ p.1.data, isCoordChar c = false := by
  decide

theorem translate_coord_id (s : String) (hne : s.data ≠ [])
    (hall : ∀ c ∈ s.data, isCoordChar c = true) : translate_korean_city s = s := by
  have hstrip : pyStrip s = s := by
    cases s with
    | mk data =>
      show String.mk (stripChars data) = String.mk data
      rw [stripChars_eq_self (fun c hc => coordChar_not_space (hall c hc))]
  have hexact : KOREAN_CITY_MAPPING.find? (fun p => p.1 == s) = none := by
    rw [List.find?_eq_none]
    intro p hp hbeq
    have he : p.1 = s := by
      have hb2 : (p.1 == s) = true := hbeq
      rw [beq_iff_eq] at hb2
      exact hb2
    obtain ⟨hne2, hcc⟩ := table_keys_noncoord p hp
    obtain ⟨c, t, hct⟩ := List.exists_cons_of_ne_nil hne2
    have hc1 : isCoordChar c = false := hcc c (by rw [hct]; simp)
    have hc2 : isCoordChar c = true := by
      apply hall
      have hdata : p.1.data = s.data := by rw [he]
      rw [← hdata, hct]
      simp
    rw [hc1] at hc2
    exact absurd hc2 (by simp)
  have hcont : KOREAN_CITY_MAPPING.find?
      (fun p => strIn p.1 s || strIn s p.1) = none := by
    rw [List.find?_eq_none]
    intro p hp hbor
    obtain ⟨hne2, hcc⟩ := table_keys_noncoord p hp
    have hor2 : (strIn p.1 s || strIn s p.1) = true := hbor
    rcases Bool.or_eq_true _ _ ▸ hor2 with hin | hin
    · obtain ⟨c, t, hct⟩ := List.exists_cons_of_ne_nil hne2
      have hcs : c ∈ s.data :=
        listHasSub_subset p.1.data s.data hin c (by rw [hct]; simp)
      have hc2 := hall c hcs
      rw [hcc c (by rw [hct]; simp)] at hc2
      exact absurd hc2 (by simp)
    · obtain ⟨c, t, hct⟩ := List.exists_cons_of_ne_nil hne
      have hcp : c ∈ p.1.data :=
        listHasSub_subset s.data p.1.data hin c (by rw [hct]; simp)
      have hc2 := hall c (by rw [hct]; simp)
      rw [hcc c hcp] at hc2
      exact absurd hc2 (by simp)
  simp only [translate_korean_city, hexact, hcont, hstrip]


/-! ## The coordinate pattern: character classes and splitting -/

theorem matchUnsigned_chars {cs : List Char} (h : matchUnsigned cs = true) :
    ∀ c ∈ cs, isCoordChar c = true := by
  intro c hc
  rw [matchUnsigned] at h
  simp only [Bool.and_eq_true] at h
  rw [← List.takeWhile_append_dropWhile Char.isDigit cs] at hc
  rcases List.mem_append.mp hc with hct | hcd
  · have := List.mem_takeWhile_imp hct
    simp [isCoordChar, this]
  · rcases hd : cs.dropWhile Char.isDigit with _ | ⟨d, frac⟩
    · rw [hd] at hcd
      simp at hcd
    · rw [hd] at hcd h
      obtain ⟨-, h2⟩ := h
      simp only [Bool.and_eq_true, beq_iff_eq] at h2
      rcases List.mem_cons.mp hcd with he | hcf
      · rw [he, h2.1]
        decide
      · have hdig := List.all_eq_true.mp h2.2 c hcf
        simp only [decide_eq_true_iff] at hdig
        simp [isCoordChar, hdig]

theorem matchNumPart_chars {cs : List Char} (h : matchNumPart cs = true) :
    ∀ c ∈ cs, isCoordChar c = true := by
  rw [matchNumPart] at h
  by_cases hh : cs.head? = some '-'
  · rw [if_pos hh] at h
    cases cs with
    | nil => simp at hh
    | cons a rest =>
      have ha : a = '-' := by simpa using hh
      intro c hc
      rcases List.mem_cons.mp hc with he | hc
      · rw [he, ha]
        decide
      · exact matchUnsigned_chars h c hc
  · rw [if_neg hh] at h
    exact matchUnsigned_chars h

theorem matchNumPart_ne_nil {cs : List Char} (h : matchNumPart cs = true) : cs ≠ [] := by
  intro he
  subst he
  simp [matchNumPart, matchUnsigned] at h

theorem splitComma_ne_nil : ∀ l : List Char, splitComma l ≠ [] := by
  intro l
  cases l with
  | nil => simp [splitComma]
  | cons c rest =>
    by_cases hc : c = ','
    · simp [splitComma, hc]
    · simp only [splitComma, hc, if_false]
      rcases hs : splitComma rest with _ | ⟨r, rs⟩
      · exact absurd hs (splitComma_ne_nil rest)
      · simp

theorem splitComma_one : ∀ l x, splitComma l = [x] → l = x := by
  intro l
  induction l with
  | nil =>
    intro x h
    simp only [splitComma, List.cons.injEq] at h
    exact h.1
  | cons c rest ih =>
    intro x h
    by_cases hc : c = ','
    · rw [splitComma, if_pos hc] at h
      simp only [List.cons.injEq] at h
      exact absurd h.2 (splitComma_ne_nil rest)
    · rw [splitComma, if_neg hc] at h
      rcases hs : splitComma rest with _ | ⟨r, rs⟩
      · exact absurd hs (splitComma_ne_nil rest)
      · rw [hs] at h
        simp only [List.cons.injEq] at h
        obtain ⟨hx, hrs⟩ := h
        have hr : rest = r := ih r (by rw [hs, hrs])
        rw [← hx, hr]

theorem splitComma_two : ∀ l a b, splitComma l = [a, b] → l = a ++ ',' :: b := by
  intro l
  induction l with
  | nil =>
    intro a b h
    simp [splitComma] at h
  | cons c rest ih =>
    intro a b h
    by_cases hc : c = ','
    · subst hc
      rw [splitComma, if_pos rfl] at h
      simp only [List.cons.injEq] at h
      obtain ⟨ha, hb⟩ := h
      rw [← ha, List.nil_append]
      exact congrArg (List.cons ',') (splitComma_one rest b hb)
    · rw [splitComma, if_neg hc] at h
      rcases hs : splitComma rest with _ | ⟨r, rs⟩
      · exact absurd hs (splitComma_ne_nil rest)
      · rw [hs] at h
        simp only [List.cons.injEq] at h
        obtain ⟨ha, hrs⟩ := h
        have hrest : rest = r ++ ',' :: b := ih r b (by rw [hs, hrs])
        rw [← ha, hrest]
        simp

theorem coordPattern_chars {s : String} (h : coordPattern s = true) :
    (∀ c ∈ s.data, isCoordChar c = true) ∧ s.data ≠ [] := by
  rw [coordPattern] at h
  rcases hs : splitComma s.data with _ | ⟨a, rs⟩
  · exact absurd hs (splitComma_ne_nil s.data)
  · rcases rs with _ | ⟨b, rs2⟩
    · rw [hs] at h
      simp at h
    · rcases rs2 with _ | ⟨x, rs3⟩
      · rw [hs] at h
        simp only [Bool.and_eq_true] at h
        have hdata : s.data = a ++ ',' :: b := splitComma_two s.data a b hs
        constructor
        · intro c hc
          rw [hdata] at hc
          rcases List.mem_append.mp hc with hca | hcb
          · exact matchNumPart_chars h.1 c hca
          · rcases List.mem_cons.mp hcb with he | hcb
            · rw [he]
              decide
            · exact matchNumPart_chars h.2 c hcb
        · rw [hdata]
          simp
      · rw [hs] at h
        simp at h


/-! ## Digit arithmetic -/

theorem digitVal_le {c : Char} (h : c.isDigit = true) : digitVal c ≤ 9 := by
  simp only [Char.isDigit, Bool.and_eq_true, decide_eq_true_iff, ge_iff_le] at h
  obtain ⟨-, h2⟩ := h
  rw [UInt32.le_def, BitVec.le_def] at h2
  have h57 : ((57 : UInt32)).toBitVec.toNat = 57 := rfl
  rw [h57] at h2
  simp only [digitVal, Char.toNat, UInt32.toNat]
  omega

theorem foldl_digits_lt : ∀ (l : List Char) (a : Nat), (∀ c ∈ l, c.isDigit = true) →
    l.foldl (fun x c => 10 * x + digitVal c) a < (a + 1) * 10 ^ l.length := by
  intro l
  induction l with
  | nil =>
    intro a _
    simp
  | cons c t ih =>
    intro a hdig
    rw [List.foldl_cons]
    have hv : digitVal c ≤ 9 := digitVal_le (hdig c (by simp))
    have ht := ih (10 * a + digitVal c) (fun x hx => hdig x (by simp [hx]))
    calc t.foldl (fun x c => 10 * x + digitVal c) (10 * a + digitVal c)
        < (10 * a + digitVal c + 1) * 10 ^ t.length := ht
      _ ≤ ((a + 1) * 10) * 10 ^ t.length := by
          have : 10 * a + digitVal c + 1 ≤ (a + 1) * 10 := by omega
          exact Nat.mul_le_mul_right _ this
      _ = (a + 1) * 10 ^ (c :: t).length := by
          rw [List.length_cons, pow_succ]
          ring

theorem digitsToNat_lt {l : List Char} (h : ∀ c ∈ l, c.isDigit = true) :
    digitsToNat l < 10 ^ l.length := by
  have := foldl_digits_lt l 0 h
  simpa [digitsToNat] using this

/-! ## Parse success on pattern matches -/

theorem matchUnsigned_parse {cs : List Char} (h : matchUnsigned cs = true) :
    ∃ d, parseUnsigned cs = some d ∧ d.neg = false ∧ d.fracNum < 10 ^ d.fracLen := by
  rw [matchUnsigned] at h
  simp only [Bool.and_eq_true] at h
  obtain ⟨hip, hrest⟩ := h
  have hip2 : (cs.takeWhile Char.isDigit).isEmpty = false := by
    cases hv : (cs.takeWhile Char.isDigit).isEmpty
    · rfl
    · rw [hv] at hip
      simp at hip
  simp only [parseUnsigned, hip2, Bool.false_eq_true, if_false]
  rcases hd : cs.dropWhile Char.isDigit with _ | ⟨d, frac⟩
  · exact ⟨_, rfl, rfl, by norm_num⟩
  · rw [hd] at hrest
    simp only [Bool.and_eq_true, beq_iff_eq] at hrest
    simp only [hrest.1, hrest.2, decide_True, Bool.true_and, if_true]
    refine ⟨_, rfl, rfl, ?_⟩
    show digitsToNat frac < 10 ^ frac.length
    apply digitsToNat_lt
    intro c hc
    have := List.all_eq_true.mp hrest.2 c hc
    simpa using this

theorem matchNumPart_parse {cs : List Char} (h : matchNumPart cs = true) :
    ∃ d, parseDec cs = some d ∧ d.fracNum < 10 ^ d.fracLen := by
  rw [matchNumPart] at h
  rw [parseDec]
  by_cases hh : cs.head? = some '-'
  · rw [if_pos hh] at h ⊢
    obtain ⟨d, hp, -, hb⟩ := matchUnsigned_parse h
    exact ⟨{ d with neg := true }, by rw [hp]; rfl, hb⟩
  · rw [if_neg hh] at h ⊢
    obtain ⟨d, hp, -, hb⟩ := matchUnsigned_parse h
    exact ⟨d, hp, hb⟩


/-! ## Digit rendering -/

theorem digitChar_isDigit (v : Nat) : (digitChar v).isDigit = true := by
  rcases v with _|_|_|_|_|_|_|_|_|v <;> rfl

theorem digitVal_digitChar (v : Nat) (h : v < 10) : digitVal (digitChar v) = v := by
  rcases v with _|_|_|_|_|_|_|_|_|v
  all_goals first
    | rfl
    | (have hv : v = 0 := by omega
       subst hv
       rfl)

theorem natDigitsGo_spec : ∀ (fuel n : Nat) (acc : List Char), n ≤ fuel →
    ∃ ds, natDigitsGo fuel n acc = ds ++ acc ∧
      (∀ c ∈ ds, c.isDigit = true) ∧
      (∀ a, ds.foldl (fun x c => 10 * x + digitVal c) a = a * 10 ^ ds.length + n) ∧
      (∀ m, n < 10 ^ m → ds.length ≤ m) := by
  intro fuel
  induction fuel with
  | zero =>
    intro n acc hn
    have h0 : n = 0 := Nat.le_zero.mp hn
    subst h0
    exact ⟨[], rfl, by simp, by simp, by simp⟩
  | succ f ih =>
    intro n acc hn
    by_cases h0 : n = 0
    · subst h0
      refine ⟨[], ?_, by simp, by simp, by simp⟩
      simp [natDigitsGo]
    · have hdiv : n / 10 < n := Nat.div_lt_self (Nat.pos_of_ne_zero h0) (by norm_num)
      obtain ⟨ds, hgo, hdig, hfold, hlen⟩ :=
        ih (n / 10) (digitChar (n % 10) :: acc) (by omega)
      refine ⟨ds ++ [digitChar (n % 10)], ?_, ?_, ?_, ?_⟩
      · rw [natDigitsGo, if_neg h0, hgo, List.append_assoc]
        rfl
      · intro c hc
        rcases List.mem_append.mp hc with hc | hc
        · exact hdig c hc
        · have he : c = digitChar (n % 10) := by simpa using hc
          rw [he]
          exact digitChar_isDigit (n % 10)
      · intro a
        rw [List.foldl_append, hfold, List.length_append]
        simp only [List.foldl_cons, List.foldl_nil, List.length_cons, List.length_nil]
        rw [digitVal_digitChar (n % 10) (by omega)]
        have hdm : 10 * (n / 10) + n % 10 = n := by omega
        calc 10 * (a * 10 ^ ds.length + n / 10) + n % 10
            = a * (10 ^ ds.length * 10) + (10 * (n / 10) + n % 10) := by ring
          _ = a * 10 ^ (ds.length + (0 + 1)) + n := by rw [hdm, pow_succ]
      · intro m hm
        have hm1 : 1 ≤ m := by
          by_contra hcon
          have : m = 0 := by omega
          subst this
          simp at hm
          omega
        have hlt : n / 10 < 10 ^ (m - 1) := by
          have hps : 10 ^ (m - 1) * 10 = 10 ^ m := by
            rw [← pow_succ]
            congr 1
            omega
          omega
        have := hlen (m - 1) hlt
        rw [List.length_append]
        simp only [List.length_cons, List.length_nil]
        omega

theorem natDigits_spec (n : Nat) :
    natDigits n ≠ [] ∧ (∀ c ∈ natDigits n, c.isDigit = true) ∧
    digitsToNat (natDigits n) = n ∧
    ∀ m, n < 10 ^ m → 1 ≤ m → (natDigits n).length ≤ m := by
  by_cases h0 : n = 0
  · subst h0
    refine ⟨by simp [natDigits], ?_, by decide, ?_⟩
    · intro c hc
      simp only [natDigits] at hc
      norm_num at hc
      rw [hc]
      decide
    · intro m _ hm
      simp [natDigits, hm]
  · obtain ⟨ds, hgo, hdig, hfold, hlen⟩ := natDigitsGo_spec n n [] (le_refl n)
    rw [List.append_nil] at hgo
    have hnd : natDigits n = ds := by rw [natDigits, if_neg h0, hgo]
    have hdsne : ds ≠ [] := by
      intro he
      subst he
      have := hfold 0
      simp at this
      exact h0 this.symm
    refine ⟨by rw [hnd]; exact hdsne, by rw [hnd]; exact hdig, ?_, ?_⟩
    · rw [hnd, digitsToNat]
      have := hfold 0
      simpa using this
    · intro m hm _
      rw [hnd]
      exact hlen m hm

theorem digitsToNat_replicate_zero (m : Nat) (l : List Char) :
    digitsToNat (List.replicate m '0' ++ l) = digitsToNat l := by
  induction m with
  | zero => simp
  | succ k ih =>
    rw [List.replicate_succ, List.cons_append, digitsToNat, List.foldl_cons]
    have : 10 * 0 + digitVal '0' = 0 := by decide
    rw [this]
    exact ih

theorem stripZeros_spec : ∀ (k n : Nat),
    ((stripZeros n k).1 : ℚ) / (10 : ℚ) ^ (stripZeros n k).2 = (n : ℚ) / (10 : ℚ) ^ k ∧
    (n < 10 ^ k → (stripZeros n k).1 < 10 ^ (stripZeros n k).2) := by
  intro k
  induction k with
  | zero =>
    intro n
    constructor
    · rfl
    · intro h
      exact h
  | succ k ih =>
    intro n
    by_cases hm : n % 10 = 0
    · simp only [stripZeros, hm, if_true]
      obtain ⟨hv, hb⟩ := ih (n / 10)
      constructor
      · rw [hv]
        have hn : (n : ℚ) = 10 * ((n / 10 : Nat) : ℚ) := by
          have h10 : 10 * (n / 10) = n := by omega
          exact_mod_cast h10.symm
        rw [hn, pow_succ, mul_comm ((10 : ℚ) ^ k) 10]
        rw [mul_div_mul_left _ _ (by norm_num : (10 : ℚ) ≠ 0)]
      · intro hlt
        apply hb
        have hps : 10 ^ k * 10 = 10 ^ (k + 1) := (pow_succ 10 k).symm
        omega
    · simp [stripZeros, hm]


theorem takeWhile_append_of {p : Char → Bool} {xs : List Char} (y : Char) (ys : List Char)
    (hxs : ∀ x ∈ xs, p x = true) (hy : p y = false) :
    (xs ++ y :: ys).takeWhile p = xs ∧ (xs ++ y :: ys).dropWhile p = y :: ys := by
  induction xs with
  | nil => simp [List.takeWhile_cons, List.dropWhile_cons, hy]
  | cons a t ih =>
    have ha : p a = true := hxs a (by simp)
    obtain ⟨h1, h2⟩ := ih (fun x hx => hxs x (by simp [hx]))
    constructor
    · rw [List.cons_append, List.takeWhile_cons, ha]
      simp [h1]
    · rw [List.cons_append, List.dropWhile_cons, ha]
      simp [h2]

theorem parseUnsigned_render (i : Nat) (F : List Char)
    (hFdig : ∀ c ∈ F, c.isDigit = true) :
    parseUnsigned (natDigits i ++ '.' :: F) =
      some ⟨false, i, digitsToNat F, F.length⟩ := by
  obtain ⟨hine, hidig, hival, -⟩ := natDigits_spec i
  obtain ⟨htake, hdrop⟩ := takeWhile_append_of '.' F hidig (by decide)
  have hie : (natDigits i).isEmpty = false := by
    cases hv : natDigits i with
    | nil => exact absurd hv hine
    | cons a t => rfl
  simp only [parseUnsigned, htake, hdrop]
  rw [if_neg (by rw [hie]; simp)]
  rw [if_pos (by
    simp only [decide_True, Bool.true_and]
    exact List.all_eq_true.mpr (fun c hc => by simpa using hFdig c hc))]
  rw [hival]

theorem parseDec_render_pos (i : Nat) (F : List Char)
    (hFdig : ∀ c ∈ F, c.isDigit = true) :
    parseDec (natDigits i ++ '.' :: F) =
      some ⟨false, i, digitsToNat F, F.length⟩ := by
  obtain ⟨hine, hidig, -, -⟩ := natDigits_spec i
  obtain ⟨c, t, hct⟩ := List.exists_cons_of_ne_nil hine
  have hcd : c.isDigit = true := hidig c (by rw [hct]; simp)
  rw [parseDec, if_neg ?hne]
  · exact parseUnsigned_render i F hFdig
  · rw [hct, List.cons_append, List.head?_cons]
    intro he
    have hce : c = '-' := by simpa using he
    rw [hce] at hcd
    exact absurd hcd (by decide)

theorem parseDec_render_neg (i : Nat) (F : List Char)
    (hFdig : ∀ c ∈ F, c.isDigit = true) :
    parseDec ('-' :: (natDigits i ++ '.' :: F)) =
      some ⟨true, i, digitsToNat F, F.length⟩ := by
  rw [parseDec, if_pos (by rw [List.head?_cons])]
  simp only [List.tail_cons, parseUnsigned_render i F hFdig, Option.map_some]
  rfl

/-- Round trip of the float rendering: re-parsing `str(float)` of an
exact decimal yields a decimal with the same rational value. -/
theorem parse_pyStrFloat (d : Dec) (hb : d.fracNum < 10 ^ d.fracLen) :
    ∃ d2, parseDec (pyStrFloat d).data = some d2 ∧ d2.val = d.val := by
  obtain ⟨hsv, hsb⟩ := stripZeros_spec d.fracLen d.fracNum
  have hfdig : ∀ c ∈ (if (stripZeros d.fracNum d.fracLen).2 = 0 then ['0']
      else List.replicate ((stripZeros d.fracNum d.fracLen).2 -
        (natDigits (stripZeros d.fracNum d.fracLen).1).length) '0' ++
        natDigits (stripZeros d.fracNum d.fracLen).1), c.isDigit = true := by
    by_cases hp2 : (stripZeros d.fracNum d.fracLen).2 = 0
    · rw [if_pos hp2]
      intro c hc
      have hc0 : c = '0' := by simpa using hc
      rw [hc0]
      decide
    · rw [if_neg hp2]
      intro c hc
      rcases List.mem_append.mp hc with hc | hc
      · have hc0 : c = '0' := List.eq_of_mem_replicate hc
        rw [hc0]
        decide
      · exact (natDigits_spec _).2.1 c hc
  have hfval : (digitsToNat (if (stripZeros d.fracNum d.fracLen).2 = 0 then ['0']
      else List.replicate ((stripZeros d.fracNum d.fracLen).2 -
        (natDigits (stripZeros d.fracNum d.fracLen).1).length) '0' ++
        natDigits (stripZeros d.fracNum d.fracLen).1) : ℚ) /
      (10 : ℚ) ^ (if (stripZeros d.fracNum d.fracLen).2 = 0 then ['0']
      else List.replicate ((stripZeros d.fracNum d.fracLen).2 -
        (natDigits (stripZeros d.fracNum d.fracLen).1).length) '0' ++
        natDigits (stripZeros d.fracNum d.fracLen).1).length =
      (d.fracNum : ℚ) / (10 : ℚ) ^ d.fracLen := by
    rw [← hsv]
    by_cases hp2 : (stripZeros d.fracNum d.fracLen).2 = 0
    · rw [if_pos hp2, hp2]
      have hz : (stripZeros d.fracNum d.fracLen).1 = 0 := by
        have := hsb hb
        rw [hp2] at this
        omega
      rw [hz]
      norm_num
      decide
    · rw [if_neg hp2]
      have hlen : (natDigits (stripZeros d.fracNum d.fracLen).1).length ≤
          (stripZeros d.fracNum d.fracLen).2 :=
        (natDigits_spec _).2.2.2 _ (hsb hb) (by omega)
      rw [digitsToNat_replicate_zero, (natDigits_spec _).2.2.1, List.length_append,
        List.length_replicate]
      congr 2
      omega
  cases hneg : d.neg
  · have hdata : (pyStrFloat d).data = natDigits d.intPart ++ '.' ::
        (if (stripZeros d.fracNum d.fracLen).2 = 0 then ['0']
        else List.replicate ((stripZeros d.fracNum d.fracLen).2 -
          (natDigits (stripZeros d.fracNum d.fracLen).1).length) '0' ++
          natDigits (stripZeros d.fracNum d.fracLen).1) := by
      simp only [pyStrFloat, hneg, Bool.false_eq_true, if_false, List.nil_append]
    rw [hdata, parseDec_render_pos d.intPart _ hfdig]
    refine ⟨_, rfl, ?_⟩
    show Dec.val _ = d.val
    rw [Dec.val, Dec.val, hneg]
    simp only [Bool.false_eq_true, if_false]
    rw [hfval]
  · have hdata : (pyStrFloat d).data = '-' :: (natDigits d.intPart ++ '.' ::
        (if (stripZeros d.fracNum d.fracLen).2 = 0 then ['0']
        else List.replicate ((stripZeros d.fracNum d.fracLen).2 -
          (natDigits (stripZeros d.fracNum d.fracLen).1).length) '0' ++
          natDigits (stripZeros d.fracNum d.fracLen).1)) := by
      simp only [pyStrFloat, hneg, if_true]
      rfl
    rw [hdata, parseDec_render_neg d.intPart _ hfdig]
    refine ⟨_, rfl, ?_⟩
    show Dec.val _ = d.val
    rw [Dec.val, Dec.val, hneg]
    simp only [if_true]
    rw [hfval]


/-- The executable range check agrees with the comparison of rational
values. -/
theorem Dec.inRange_iff (d : Dec) (lo hi : ℤ) :
    d.inRange lo hi = true ↔ ((lo : ℚ) ≤ d.val ∧ d.val ≤ (hi : ℚ)) := by
  have hpos : (0 : ℚ) < (10 : ℚ) ^ d.fracLen := by positivity
  have hval : d.val = (d.scaled : ℚ) / (10 : ℚ) ^ d.fracLen := by
    rcases d with ⟨neg, i, f, k⟩
    cases neg <;>
      simp only [Dec.val, Dec.scaled] <;>
      push_cast <;>
      field_simp
  rw [hval, Dec.inRange, Bool.and_eq_true, decide_eq_true_iff, decide_eq_true_iff,
    le_div_iff hpos, div_le_iff hpos]
  constructor
  · rintro ⟨h1, h2⟩
    constructor
    · exact_mod_cast h1
    · exact_mod_cast h2
  · rintro ⟨h1, h2⟩
    constructor
    · exact_mod_cast h1
    · exact_mod_cast h2

/-- Evaluation of `parse_location_input` on a string matching the
coordinate pattern: the input reaches the coordinate branch unchanged
and only the range checks decide the outcome. -/
theorem parse_coord_eval (s : String) (latCs lonCs : List Char) (la lb : Dec)
    (hpat : coordPattern s = true)
    (hsplit : splitComma s.data = [latCs, lonCs])
    (hla : parseDec latCs = some la) (hlb : parseDec lonCs = some lb) :
    parse_location_input s =
      (if !(la.inRange (-90) 90) then .err latMsg
       else if !(lb.inRange (-180) 180) then .err lonMsg
       else .ok (.coords (pyStrFloat la) (pyStrFloat lb))) := by
  obtain ⟨hall, hne⟩ := coordPattern_chars hpat
  have hstrip : pyStrip s = s := by
    cases s with
    | mk data =>
      show String.mk (stripChars data) = String.mk data
      rw [stripChars_eq_self (fun c hc => coordChar_not_space (hall c hc))]
  have hie : s.data.isEmpty = false := by
    cases hv : s.data with
    | nil => exact absurd hv hne
    | cons a t => rfl
  have htr : translate_korean_city s = s := translate_coord_id s hne hall
  simp only [parse_location_input, hstrip, hie, Bool.false_eq_true, if_false,
    htr, ne_eq, not_true_eq_false, hpat, if_true, hsplit, hla, hlb]

/-- Claim C1: every input matching the strict coordinate pattern with
latitude in [-90, 90] and longitude in [-180, 180] parses to
`{lat, lon}` whose string values are numerically equal to the input
numbers; the rendering is Python's default float-to-string, so
"37.50,126.9780" yields the canonicalized "37.5" and "126.978". -/
theorem coordinate_parse_roundtrip :
    (∀ (s : String) (latCs lonCs : List Char) (la lb : Dec),
      coordPattern s = true →
      splitComma s.data = [latCs, lonCs] →
      parseDec latCs = some la → parseDec lonCs = some lb →
      (-90 : ℚ) ≤ la.val → la.val ≤ 90 → (-180 : ℚ) ≤ lb.val → lb.val ≤ 180 →
      ∃ latS lonS, parse_location_input s = .ok (.coords latS lonS) ∧
        (∃ la2, parseDec latS.data = some la2 ∧ la2.val = la.val) ∧
        (∃ lb2, parseDec lonS.data = some lb2 ∧ lb2.val = lb.val)) ∧
    parse_location_input "37.50,126.9780" = .ok (.coords "37.5" "126.978") := by
  constructor
  · intro s latCs lonCs la lb hpat hsplit hla hlb h1 h2 h3 h4
    have hbounds : la.fracNum < 10 ^ la.fracLen ∧ lb.fracNum < 10 ^ lb.fracLen := by
      have hp2 := hpat
      rw [coordPattern, hsplit] at hp2
      simp only [Bool.and_eq_true] at hp2
      obtain ⟨ma, mb⟩ := hp2
      obtain ⟨da, hda, hba⟩ := matchNumPart_parse ma
      obtain ⟨db, hdb, hbb⟩ := matchNumPart_parse mb
      rw [hla] at hda
      rw [hlb] at hdb
      have hea : la = da := by injection hda
      have heb : lb = db := by injection hdb
      rw [hea, heb]
      exact ⟨hba, hbb⟩
    rw [parse_coord_eval s latCs lonCs la lb hpat hsplit hla hlb]
    rw [if_neg (by rw [(Dec.inRange_iff la (-90) 90).mpr (by push_cast; exact ⟨h1, h2⟩)]; simp)]
    rw [if_neg (by rw [(Dec.inRange_iff lb (-180) 180).mpr (by push_cast; exact ⟨h3, h4⟩)]; simp)]
    obtain ⟨la2, hla2, hva⟩ := parse_pyStrFloat la hbounds.1
    obtain ⟨lb2, hlb2, hvb⟩ := parse_pyStrFloat lb hbounds.2
    exact ⟨pyStrFloat la, pyStrFloat lb, rfl, ⟨la2, hla2, hva⟩, ⟨lb2, hlb2, hvb⟩⟩
  · decide

/-- Witness for claim C1 at the concrete input 37.5,127. -/
theorem coordinate_parse_roundtrip_witness :
    coordPattern "37.5,127" = true ∧
    splitComma ("37.5,127" : String).data = [['3', '7', '.', '5'], ['1', '2', '7']] ∧
    parseDec ['3', '7', '.', '5'] = some ⟨false, 37, 5, 1⟩ ∧
    parseDec ['1', '2', '7'] = some ⟨false, 127, 0, 0⟩ ∧
    (∃ latS lonS, parse_location_input "37.5,127" = .ok (.coords latS lonS) ∧
      (∃ la2, parseDec latS.data = some la2 ∧ la2.val = (⟨false, 37, 5, 1⟩ : Dec).val) ∧
      (∃ lb2, parseDec lonS.data = some lb2 ∧ lb2.val = (⟨false, 127, 0, 0⟩ : Dec).val)) := by
  refine ⟨by decide, by decide, by decide, by decide, ?_⟩
  exact coordinate_parse_roundtrip.1 "37.5,127" ['3', '7', '.', '5'] ['1', '2', '7']
    ⟨false, 37, 5, 1⟩ ⟨false, 127, 0, 0⟩ (by decide) (by decide)
    (by decide) (by decide)
    (by norm_num [Dec.val]) (by norm_num [Dec.val]) (by norm_num [Dec.val])
    (by norm_num [Dec.val])

/-- Claim C2: an input matching the coordinate pattern whose latitude
lies outside [-90, 90] raises the validation error naming the latitude
bound, and one whose latitude is in range but whose longitude lies
outside [-180, 180] raises the validation error naming the longitude
bound; neither falls through to a city-name query. -/
theorem coordinate_out_of_range (s : String) (latCs lonCs : List Char) (la lb : Dec)
    (hpat : coordPattern s = true)
    (hsplit : splitComma s.data = [latCs, lonCs])
    (hla : parseDec latCs = some la) (hlb : parseDec lonCs = some lb) :
    ((la.val < -90 ∨ 90 < la.val) → parse_location_input s = .err latMsg) ∧
    ((-90 : ℚ) ≤ la.val → la.val ≤ 90 → (lb.val < -180 ∨ 180 < lb.val) →
      parse_location_input s = .err lonMsg) := by
  rw [parse_coord_eval s latCs lonCs la lb hpat hsplit hla hlb]
  constructor
  · intro hout
    have hr : la.inRange (-90) 90 = false := by
      cases hv : la.inRange (-90) 90
      · rfl
      · obtain ⟨hb1, hb2⟩ := (Dec.inRange_iff la (-90) 90).mp hv
        push_cast at hb1 hb2
        rcases hout with h | h
        · exact absurd hb1 (by push_neg; exact h)
        · exact absurd hb2 (by push_neg; exact h)
    rw [if_pos (by rw [hr]; rfl)]
  · intro hin1 hin2 hout
    have hr1 : la.inRange (-90) 90 = true :=
      (Dec.inRange_iff la (-90) 90).mpr (by push_cast; exact ⟨hin1, hin2⟩)
    have hr2 : lb.inRange (-180) 180 = false := by
      cases hv : lb.inRange (-180) 180
      · rfl
      · obtain ⟨hb1, hb2⟩ := (Dec.inRange_iff lb (-180) 180).mp hv
        push_cast at hb1 hb2
        rcases hout with h | h
        · exact absurd hb1 (by push_neg; exact h)
        · exact absurd hb2 (by push_neg; exact h)
    rw [if_neg (by rw [hr1]; simp), if_pos (by rw [hr2]; rfl)]

/-- Witness for claim C2 at the out-of-range inputs 95,10 and 0,181. -/
theorem coordinate_out_of_range_witness :
    coordPattern "95,10" = true ∧
    parse_location_input "95,10" = .err latMsg ∧
    coordPattern "0,181" = true ∧
    parse_location_input "0,181" = .err lonMsg := by
  refine ⟨by decide, ?_, by decide, ?_⟩
  · exact (coordinate_out_of_range "95,10" ['9', '5'] ['1', '0']
      ⟨false, 95, 0, 0⟩ ⟨false, 10, 0, 0⟩
      (by decide) (by decide) (by decide) (by decide)).1 (by norm_num [Dec.val])
  · exact (coordinate_out_of_range "0,181" ['0'] ['1', '8', '1']
      ⟨false, 0, 0, 0⟩ ⟨false, 181, 0, 0⟩
      (by decide) (by decide) (by decide) (by decide)).2 (by norm_num [Dec.val])
      (by norm_num [Dec.val]) (by norm_num [Dec.val])

end Weather
